import Mathlib

/-!
Verification development for the Cam_detect tracking core.

The Python sources embedded here are `src/core/roi_filter.py` (geometric zone
engine and movement-coherence filter) and `src/core/tracker.py` (multi-object
tracker and statistics).  Numbers are modelled exactly: pixel coordinates and
confidences as rationals (Python floats idealised as exact arithmetic), frame
numbers as integers.  Python dictionaries (which preserve insertion order) are
modelled as association lists; fallible code paths (such as indexing an empty
polygon) return `Option`.  Euclidean distances, whose only uses in the tracker
are order comparisons, are carried as squared distances over `ℚ`; the bridge
lemmas `calculate_distance_lt_const_iff` and `calculate_distance_lt_iff` record
that this is observation-equivalent to the source's `math.sqrt` values.  The
movement-coherence filter genuinely computes with square roots, so that part is
embedded over `ℝ`.  Two write-only display fields of the source (`direction`,
set with `atan2`, and the per-track `max_frames_lost` dataclass field) are
never read by any logic and are omitted from the `Track` record.
-/

namespace CamDetect

/-! ## Association-list model of Python dict (insertion ordered) -/

/-- Lookup in an insertion-ordered dictionary (first entry with the key). -/
def dget {α : Type} (d : List (ℕ × α)) (k : ℕ) : Option α :=
  match d with
  | [] => none
  | p :: rest => if p.1 = k then some p.2 else dget rest k

/-- Python `d[k] = v`: overwrite in place when the key exists, else append. -/
def dset {α : Type} (d : List (ℕ × α)) (k : ℕ) (v : α) : List (ℕ × α) :=
  match d with
  | [] => [(k, v)]
  | p :: rest => if p.1 = k then (k, v) :: rest else p :: dset rest k v

/-- The keys of a dictionary, in insertion order. -/
def dkeys {α : Type} (d : List (ℕ × α)) : List ℕ := d.map (fun p => p.1)

theorem dget_dset_self {α : Type} (d : List (ℕ × α)) (k : ℕ) (v : α) :
    dget (dset d k v) k = some v := by
  induction d with
  | nil => simp [dget, dset]
  | cons q d ih =>
    by_cases hq : q.1 = k <;> simp [dget, dset, hq, ih]

theorem dget_dset_ne {α : Type} (d : List (ℕ × α)) (k k' : ℕ) (v : α) (h : k ≠ k') :
    dget (dset d k v) k' = dget d k' := by
  induction d with
  | nil => simp [dget, dset, h]
  | cons q d ih =>
    by_cases hq : q.1 = k
    · have hq' : q.1 ≠ k' := hq ▸ h
      simp [dget, dset, hq, hq', h]
    · by_cases hq' : q.1 = k' <;> simp [dget, dset, hq, hq', ih, Ne.symm h]

theorem dget_mem {α : Type} {d : List (ℕ × α)} {k : ℕ} {v : α}
    (h : dget d k = some v) : (k, v) ∈ d := by
  induction d with
  | nil => simp [dget] at h
  | cons q d ih =>
    by_cases hq : q.1 = k
    · simp only [dget, hq, if_pos rfl, Option.some.injEq] at h
      obtain ⟨q1, q2⟩ := q
      exact List.mem_cons.mpr (Or.inl (by simp_all))
    · simp only [dget, hq, if_false] at h
      exact List.mem_cons_of_mem _ (ih h)

theorem mem_dget_of_nodup {α : Type} {d : List (ℕ × α)} {k : ℕ} {v : α}
    (hnd : (dkeys d).Nodup) (h : (k, v) ∈ d) : dget d k = some v := by
  induction d with
  | nil => simp at h
  | cons q d ih =>
    simp only [dkeys, List.map_cons, List.nodup_cons] at hnd
    rcases List.mem_cons.mp h with h1 | h2
    · subst h1; simp [dget]
    · have hk : q.1 ≠ k := by
        intro hqk
        exact hnd.1 (hqk ▸ (List.mem_map.mpr ⟨(k, v), h2, rfl⟩))
      simp only [dget, hk, if_false]
      exact ih hnd.2 h2

theorem mem_dset {α : Type} {d : List (ℕ × α)} {k : ℕ} {v : α} {p : ℕ × α}
    (h : p ∈ dset d k v) : p = (k, v) ∨ p ∈ d := by
  induction d with
  | nil => simpa [dset] using h
  | cons q d ih =>
    by_cases hq : q.1 = k
    · simp only [dset, hq, if_pos rfl] at h
      rcases List.mem_cons.mp h with h1 | h2
      · exact Or.inl h1
      · exact Or.inr (List.mem_cons_of_mem _ h2)
    · simp only [dset, hq, if_false] at h
      rcases List.mem_cons.mp h with h1 | h2
      · exact Or.inr (h1 ▸ List.mem_cons_self _ _)
      · rcases ih h2 with h3 | h3
        · exact Or.inl h3
        · exact Or.inr (List.mem_cons_of_mem _ h3)

/-! ## Geometric Zone Engine (`src/core/roi_filter.py`, class ROIFilter) -/

/-- Python `int()` truncation toward zero, applied to detection centers in
`filter_detections`. -/
def pyInt (q : ℚ) : ℤ := if 0 ≤ q then ⌊q⌋ else ⌈q⌉

/-- A ROI zone record (`name`, `type`, `polygon`, `active`). -/
structure Zone where
  name : String
  ztype : String
  polygon : List (ℚ × ℚ)
  active : Bool
deriving DecidableEq

/-- One iteration of the ray-casting loop in `ROIFilter._point_in_polygon`.
The state carries the running `inside` flag and the previous vertex `p1`; the
argument is the next vertex `p2`.  The source's four nested `if`s are written
as one conjunction; the source additionally guards the interpolation with
`p1y != p2y`, which always holds inside the window
`min p1y p2y < y ≤ max p1y p2y`, so the interpolated abscissa below is the
value the source computes whenever it is used (ℚ-division totality makes the
expression well defined elsewhere). -/
def pipStep (x y : ℚ) (st : Bool × (ℚ × ℚ)) (p2 : ℚ × ℚ) : Bool × (ℚ × ℚ) :=
  let inside := st.1
  let p1 := st.2
  let inside' :=
    if min p1.2 p2.2 < y ∧ y ≤ max p1.2 p2.2 ∧ x ≤ max p1.1 p2.1 ∧
        (p1.1 = p2.1 ∨ x ≤ (y - p1.2) * (p2.1 - p1.1) / (p2.2 - p1.2) + p1.1) then
      !inside
    else inside
  (inside', p2)

/-- `ROIFilter._point_in_polygon`.  The source starts from `polygon[0]`, which
raises `IndexError` on an empty polygon: that is the `none` case. -/
def point_in_polygon (point : ℚ × ℚ) (polygon : List (ℚ × ℚ)) : Option Bool :=
  match polygon with
  | [] => none
  | p0 :: rest =>
    some (((rest ++ [p0]).foldl (pipStep point.1 point.2) (false, p0)).1)

/-- A detection record as consumed by the filters and the tracker
(`class_name`, `class_id`, `confidence`, `bbox`, `center`, and the
`roi_filtered` marker added by `filter_detections`). -/
structure Detection where
  class_name : String
  class_id : ℤ
  confidence : ℚ
  bbox : List ℚ
  center : ℚ × ℚ
  roi_filtered : Bool := false
deriving DecidableEq

def defaultDetection : Detection :=
  { class_name := "", class_id := 0, confidence := 0, bbox := [], center := (0, 0) }

instance : Inhabited Detection := ⟨defaultDetection⟩

/-- The zone-scanning loop of `ROIFilter.filter_detections`: walk the zones in
order, skip inactive ones, stop at the first active zone containing `p`
(Python `break`), and propagate the `IndexError` of an empty active polygon. -/
def zoneHit (zones : List Zone) (p : ℚ × ℚ) : Option Bool :=
  match zones with
  | [] => some false
  | z :: rest =>
    if z.active then
      match point_in_polygon p z.polygon with
      | none => none
      | some true => some true
      | some false => zoneHit rest p
    else zoneHit rest p

/-- The per-detection decision of `ROIFilter.filter_detections`: exclusion
zones first (a hit drops the detection), then, only when the inclusion list is
nonempty, the detection must hit some active inclusion zone. -/
def detDecision (exclusion_zones inclusion_zones : List Zone) (d : Detection) : Option Bool :=
  let p : ℚ × ℚ := ((pyInt d.center.1 : ℤ), (pyInt d.center.2 : ℤ))
  match zoneHit exclusion_zones p with
  | none => none
  | some true => some false
  | some false =>
    if inclusion_zones.isEmpty then some true
    else zoneHit inclusion_zones p

/-- The main loop of `ROIFilter.filter_detections`; kept detections receive
the `roi_filtered` marker. -/
def filterLoop (excl incl : List Zone) : List Detection → Option (List Detection)
  | [] => some []
  | d :: ds =>
    match detDecision excl incl d with
    | none => none
    | some false => filterLoop excl incl ds
    | some true => (filterLoop excl incl ds).map (fun r => { d with roi_filtered := true } :: r)

/-- `ROIFilter.filter_detections`: with no zones at all the input list is
returned unchanged (and unmarked). -/
def filter_detections (excl incl : List Zone) (dets : List Detection) : Option (List Detection) :=
  if incl.isEmpty ∧ excl.isEmpty then some dets
  else filterLoop excl incl dets

/-! Spec-side definitions for the zone engine (`spec.md` §4.1), to be compared
with the source embedding above. -/

/-- Modelled from the spec's words: the point lies inside some *active* zone
of the list (containment by the ray-casting test; an unreadable polygon
contributes nothing). -/
def activeZoneContains (zones : List Zone) (p : ℚ × ℚ) : Bool :=
  zones.any (fun z => z.active && ((point_in_polygon p z.polygon).getD false))

/-- Modelled from the spec's words (§4.1 `filter`): a detection is kept iff
its center is in no active exclusion zone and, when inclusion zones exist, in
at least one active inclusion zone. -/
def specKeep (excl incl : List Zone) (d : Detection) : Bool :=
  let p : ℚ × ℚ := ((pyInt d.center.1 : ℤ), (pyInt d.center.2 : ℤ))
  !activeZoneContains excl p && (incl.isEmpty || activeZoneContains incl p)

/-- Modelled from the spec's words (§4.1 `contains`): the horizontal ray from
`(x, y)` toward +x infinity crosses the edge from `a` to `b`.  Horizontal
edges (`a.2 = b.2`) are excluded; the documented boundary convention is
half-open in `y` (strict at the lower endpoint) and closed at the
intersection abscissa. -/
def raySegCross (x y : ℚ) (a b : ℚ × ℚ) : Bool :=
  decide (a.2 ≠ b.2 ∧ min a.2 b.2 < y ∧ y ≤ max a.2 b.2 ∧
    x ≤ (y - a.2) * (b.1 - a.1) / (b.2 - a.2) + a.1)

/-- The edge list of a polygon: consecutive vertex pairs, wrapping around. -/
def polygonEdges (poly : List (ℚ × ℚ)) : List ((ℚ × ℚ) × (ℚ × ℚ)) :=
  match poly with
  | [] => []
  | p0 :: rest => poly.zip (rest ++ [p0])

/-- Number of polygon edges crossed by the horizontal ray from `p`. -/
def raycastCrossings (p : ℚ × ℚ) (poly : List (ℚ × ℚ)) : ℕ :=
  (polygonEdges poly).countP (fun e => raySegCross p.1 p.2 e.1 e.2)

/-! ## Movement-Coherence Filter (`src/core/roi_filter.py`,
class MovementCoherenceFilter).  This filter genuinely computes with square
roots, so it is embedded over `ℝ` (reasoned about classically). -/

/-- `np.mean` over a list of reals. -/
noncomputable def listMean (l : List ℝ) : ℝ := l.sum / l.length

/-- `np.var` (population variance, the numpy default). -/
noncomputable def listVar (l : List ℝ) : ℝ :=
  ((l.map (fun v => (v - listMean l) ^ 2)).sum) / l.length

/-- The frame-to-frame displacement magnitudes of
`MovementCoherenceFilter._analyze_movement_coherence`. -/
noncomputable def movementMagnitudes (positions : List (ℝ × ℝ)) : List ℝ :=
  (positions.zip positions.tail).map
    (fun pq => Real.sqrt ((pq.2.1 - pq.1.1) ^ 2 + (pq.2.2 - pq.1.2) ^ 2))

open Classical in
/-- `MovementCoherenceFilter._analyze_movement_coherence`. -/
noncomputable def analyze_movement_coherence (min_movement max_jitter : ℝ)
    (positions : List (ℝ × ℝ)) : Bool :=
  if positions.length < 3 then true
  else
    let movements := movementMagnitudes positions
    if listVar movements > max_jitter ^ 2 then false
    else if listMean movements < min_movement then false
    else true

/-- `MovementCoherenceFilter.update_detection_movement`.  The per-identifier
history dictionary maps track ids to position FIFOs; the entry grows by the
new position and `pop(0)` drops the oldest sample once the length passes 10.
Returns the new dictionary and the coherence verdict. -/
noncomputable def update_detection_movement (min_movement max_jitter : ℝ)
    (detection_history : List (ℕ × List (ℝ × ℝ))) (track_id : ℕ) (position : ℝ × ℝ) :
    (List (ℕ × List (ℝ × ℝ))) × Bool :=
  let h := (dget detection_history track_id).getD []
  let h1 := h ++ [position]
  let h2 := if h1.length > 10 then h1.tail else h1
  let result :=
    if 3 ≤ h2.length then analyze_movement_coherence min_movement max_jitter h2
    else true
  (dset detection_history track_id h2, result)

/-! ## Multi-Object Tracker (`src/core/tracker.py`) -/

/-- `TrackedObject`.  The display-only `direction` field (written with
`math.atan2`, never read by the tracking logic) and the per-track dataclass
field `max_frames_lost` (shadowed by the tracker's own attribute, never read)
are omitted; everything the logic reads or the statistics report is here. -/
structure Track where
  track_id : ℕ
  class_name : String
  class_id : ℤ
  confidence : ℚ
  bbox : List ℚ
  center : ℚ × ℚ
  positions : List (ℚ × ℚ) := []
  confidences : List ℚ := []
  frame_history : List ℤ := []
  first_seen_frame : ℤ := 0
  last_seen_frame : ℤ := 0
  frames_tracked : ℕ := 0
  frames_lost : ℕ := 0
  velocity : ℚ × ℚ := (0, 0)
  is_active : Bool := true
  has_crossed_line : Bool := false
  entry_point : Option String := none
  exit_point : Option String := none
deriving DecidableEq

def defaultTrack : Track :=
  { track_id := 0, class_name := "", class_id := 0, confidence := 0, bbox := [],
    center := (0, 0) }

instance : Inhabited Track := ⟨defaultTrack⟩

/-- Tracker constants, set unconditionally in `MultiObjectTracker.__init__`:
`max_distance = 100.0`, `min_track_length = 5`, `max_frames_lost = 10`.
Distances are carried squared, so the gate compares against `100²`. -/
def max_distance_sq : ℚ := 100 * 100

def min_track_length : ℕ := 5

def max_frames_lost : ℕ := 10

/-- The `crossing_counts` dictionary. -/
structure CrossCounts where
  north : ℕ := 0
  south : ℕ := 0
  east : ℕ := 0
  west : ℕ := 0
deriving DecidableEq

/-- `self.crossing_counts[direction] += 1`. -/
def incCount (c : CrossCounts) (d : String) : CrossCounts :=
  if d = "north" then { c with north := c.north + 1 }
  else if d = "south" then { c with south := c.south + 1 }
  else if d = "east" then { c with east := c.east + 1 }
  else if d = "west" then { c with west := c.west + 1 }
  else c

/-- Total number of recorded crossings, over all four directions. -/
def totalCounts (c : CrossCounts) : ℕ := c.north + c.south + c.east + c.west

/-- A counting line: endpoints plus the orientation tag that selects which
compass directions a crossing yields. -/
structure CountingLine where
  name : String
  p1 : ℚ × ℚ
  p2 : ℚ × ℚ
  direction : String
deriving DecidableEq

/-- `MultiObjectTracker._setup_tracking_zones` for the default (empty)
configuration: `detection_zone` disabled, reference frame 1920×1080, one
horizontal line at `y = 540` tagged `vertical` and one vertical line at
`x = 960` tagged `horizontal`. -/
def defaultCountingLines : List CountingLine :=
  [ { name := "horizontal", p1 := (0, 540), p2 := (1920, 540), direction := "vertical" },
    { name := "vertical", p1 := (960, 0), p2 := (960, 1080), direction := "horizontal" } ]

/-- The mutable state of a `MultiObjectTracker` (default configuration:
`detection_zone` disabled). -/
structure TrackerState where
  tracked_objects : List (ℕ × Track) := []
  next_track_id : ℕ := 1
  frame_count : ℤ := 0
  total_tracks_created : ℕ := 0
  total_tracks_completed : ℕ := 0
  crossing_counts : CrossCounts := {}
  counting_lines : List CountingLine := defaultCountingLines
deriving DecidableEq

/-- A freshly constructed tracker. -/
def initTracker : TrackerState := {}

/-- The squared center-to-center Euclidean distance; the source's
`_calculate_distance` returns its square root and only ever compares it. -/
def sq_distance (c1 c2 : ℚ × ℚ) : ℚ := (c1.1 - c2.1) ^ 2 + (c1.2 - c2.2) ^ 2

/-- `MultiObjectTracker._calculate_distance`, literally. -/
noncomputable def calculate_distance (c1 c2 : ℚ × ℚ) : ℝ :=
  Real.sqrt (((c1.1 - c2.1 : ℚ) : ℝ) ^ 2 + ((c1.2 - c2.2 : ℚ) : ℝ) ^ 2)

/-- Bridge: comparing the source's distance with a nonnegative constant is the
same as comparing the squared distance with the squared constant; in
particular `distance < 100 ↔ sq_distance < max_distance_sq`. -/
theorem calculate_distance_lt_const_iff (c1 c2 : ℚ × ℚ) (d : ℚ) (hd : 0 ≤ d) :
    calculate_distance c1 c2 < (d : ℝ) ↔ sq_distance c1 c2 < d * d := by
  unfold calculate_distance sq_distance
  rw [show ((d : ℝ)) = Real.sqrt (d * d) by
        rw [Real.sqrt_mul_self (by exact_mod_cast hd)]]
  rw [Real.sqrt_lt_sqrt_iff (by positivity)]
  constructor
  · intro h; exact_mod_cast h
  · intro h; exact_mod_cast h

/-- Bridge: the source's distances compare exactly as the squared distances
do, so greedy minimum selection over either is the same. -/
theorem calculate_distance_lt_iff (a b c d : ℚ × ℚ) :
    calculate_distance a b < calculate_distance c d ↔
      sq_distance a b < sq_distance c d := by
  unfold calculate_distance sq_distance
  rw [Real.sqrt_lt_sqrt_iff (by positivity)]
  constructor
  · intro h; exact_mod_cast h
  · intro h; exact_mod_cast h

/-! ### Association (`MultiObjectTracker._associate_detections`) -/

/-- One cost-matrix cell: finite (the squared distance) only when the classes
match and the distance is under `max_distance`; `none` plays numpy's `inf`. -/
def costEntry (track : Track) (detection : Detection) : Option ℚ :=
  if track.class_id = detection.class_id then
    if sq_distance track.center detection.center < max_distance_sq then
      some (sq_distance track.center detection.center)
    else none
  else none

/-- The cost matrix: one row per active track, one column per detection. -/
def buildCostMatrix (tracks : List Track) (dets : List Detection) :
    List (List (Option ℚ)) :=
  tracks.map (fun t => dets.map (fun d => costEntry t d))

/-- Matrix read with out-of-range cells `none` (numpy `inf`). -/
def mEntry (m : List (List (Option ℚ))) (i j : ℕ) : Option ℚ :=
  (m.getD i []).getD j none

/-- Strict order on cost cells with `none` as `+∞` (`inf < inf` is false). -/
def ovLt : Option ℚ → Option ℚ → Bool
  | some a, some b => decide (a < b)
  | some _, none => true
  | _, _ => false

/-- All cells of the matrix with their indices, in row-major order. -/
def flattenIdx (m : List (List (Option ℚ))) : List (ℕ × ℕ × Option ℚ) :=
  (m.enum.map (fun ir => ir.2.enum.map (fun jv => (ir.1, jv.1, jv.2)))).flatten

/-- `np.unravel_index(np.argmin(m), m.shape)`: the first cell (row-major)
holding the minimum value. -/
def argminCell (m : List (List (Option ℚ))) : ℕ × ℕ × Option ℚ :=
  match flattenIdx m with
  | [] => (0, 0, none)
  | c :: rest => rest.foldl (fun best x => if ovLt x.2.2 best.2.2 then x else best) c

/-- Invalidate a committed track row and detection column (`cost = inf`). -/
def invalidateRowCol (m : List (List (Option ℚ))) (ti dj : ℕ) :
    List (List (Option ℚ)) :=
  m.enum.map (fun ir =>
    if ir.1 = ti then ir.2.map (fun _ => (none : Option ℚ))
    else ir.2.enum.map (fun jv => if jv.1 = dj then none else jv.2))

/-- The greedy loop of `_associate_detections`: up to `min(T, D)` rounds, each
committing the globally minimal finite cell and invalidating its row and
column; stop once only `inf` remains.  (The source's `cost_matrix.size == 0`
break can only fire when the round count is already 0.)  The committed value
is read back through `mEntry`, which is what the flattened argmin cell
holds. -/
def greedyAssign : ℕ → List (List (Option ℚ)) → List (ℕ × ℕ)
  | 0, _ => []
  | fuel + 1, m =>
    let c := argminCell m
    match mEntry m c.1 c.2.1 with
    | none => []
    | some _ => (c.1, c.2.1) :: greedyAssign fuel (invalidateRowCol m c.1 c.2.1)

/-- The result triple of `_associate_detections` (plus the raw index pairs
for specification purposes). -/
structure AssocResult where
  pairs : List (ℕ × ℕ)
  associations : List (ℕ × Detection)
  unmatched_detections : List Detection
  unmatched_tracks : List ℕ
deriving DecidableEq

/-- `MultiObjectTracker._associate_detections`.  `pairs` are (active-track
index, detection index) in commit order; `associations` is the insertion-order
dictionary keyed by track id; removal from the unmatched copies is Python
`list.remove` (first equal element, when present). -/
def associate_detections (s : TrackerState) (dets : List Detection) : AssocResult :=
  let active := s.tracked_objects.filter (fun p => p.2.is_active)
  if s.tracked_objects.isEmpty ∨ active.isEmpty then
    { pairs := [], associations := [], unmatched_detections := dets,
      unmatched_tracks := [] }
  else
    let track_ids := active.map (fun p => p.1)
    let m := buildCostMatrix (active.map (fun p => p.2)) dets
    let pairs := greedyAssign (min track_ids.length dets.length) m
    { pairs := pairs,
      associations := pairs.map (fun ij =>
        (track_ids.getD ij.1 0, dets.getD ij.2 defaultDetection)),
      unmatched_detections := pairs.foldl
        (fun l ij => l.erase (dets.getD ij.2 defaultDetection)) dets,
      unmatched_tracks := pairs.foldl
        (fun l ij => l.erase (track_ids.getD ij.1 0)) track_ids }

/-! ### Track mutation (`_update_track`, `_create_new_track`,
`_handle_lost_track`, `_cleanup_inactive_tracks`, `_check_line_crossings`) -/

/-- A `deque(maxlen=n)` append: the oldest entries fall off the left once the
length would exceed `n`. -/
def dequePush {α : Type} (maxlen : ℕ) (l : List α) (a : α) : List α :=
  let l1 := l ++ [a]
  if maxlen < l1.length then l1.drop (l1.length - maxlen) else l1

/-- The `ccw` orientation predicate of `_line_intersection`. -/
def ccw (A B C : ℚ × ℚ) : Bool :=
  decide ((B.2 - A.2) * (C.1 - A.1) < (C.2 - A.2) * (B.1 - A.1))

/-- `MultiObjectTracker._line_intersection`: proper segment intersection via
four `ccw` sign comparisons. -/
def line_intersection (p1 p2 p3 p4 : ℚ × ℚ) : Bool :=
  (ccw p1 p3 p4 != ccw p2 p3 p4) && (ccw p1 p2 p3 != ccw p1 p2 p4)

/-- `MultiObjectTracker._get_crossing_direction`: a `vertical`-tagged line
reports north/south from the sign of Δy, otherwise east/west from Δx. -/
def get_crossing_direction (old_pos new_pos : ℚ × ℚ) (line : CountingLine) :
    Option String :=
  if line.direction = "vertical" then
    if new_pos.2 < old_pos.2 then some "north" else some "south"
  else
    if new_pos.1 > old_pos.1 then some "east" else some "west"

/-- One line of the loop in `_check_line_crossings`: on intersection of the
movement segment with the line, and only when the track has not crossed
before, set the flag and bump the directional counter. -/
def crossStep (old_center : ℚ × ℚ) (st : CrossCounts × Track) (li : CountingLine) :
    CrossCounts × Track :=
  let counts := st.1
  let track := st.2
  if line_intersection old_center track.center li.p1 li.p2 then
    match get_crossing_direction old_center track.center li with
    | some direction =>
      if !track.has_crossed_line then
        (incCount counts direction, { track with has_crossed_line := true })
      else (counts, track)
    | none => (counts, track)
  else (counts, track)

/-- `MultiObjectTracker._check_line_crossings`. -/
def check_line_crossings (lines : List CountingLine) (counts : CrossCounts)
    (track : Track) (old_center : ℚ × ℚ) : CrossCounts × Track :=
  lines.foldl (crossStep old_center) (counts, track)

/-- `MultiObjectTracker._update_track` on one track: overwrite box,
confidence, center; push history; recompute velocity; reset `frames_lost`;
bump `frames_tracked`; then run crossing detection against the old center.
(The dead-zone guarded `direction` recomputation is the omitted write-only
field.)  Returns the new crossing counters and the new track. -/
def update_track (lines : List CountingLine) (counts : CrossCounts) (track : Track)
    (detection : Detection) (frame_number : ℤ) : CrossCounts × Track :=
  let old_center := track.center
  let t1 := { track with bbox := detection.bbox, confidence := detection.confidence,
                         center := detection.center }
  let t2 := { t1 with positions := dequePush 30 t1.positions t1.center,
                      confidences := dequePush 30 t1.confidences t1.confidence,
                      frame_history := dequePush 30 t1.frame_history frame_number }
  let t3 :=
    if 2 ≤ t2.positions.length then
      { t2 with velocity := (t2.center.1 - old_center.1, t2.center.2 - old_center.2) }
    else t2
  let t4 := { t3 with last_seen_frame := frame_number,
                      frames_tracked := t3.frames_tracked + 1, frames_lost := 0 }
  check_line_crossings lines counts t4 old_center

/-- `MultiObjectTracker._get_entry_point` (default configuration, so the
reference frame is 1920×1080): the first compass edge, in the source's
dictionary order north, south, west, east, at minimal distance. -/
def get_entry_point (center : ℚ × ℚ) : String :=
  let ds : List (String × ℚ) := [("north", center.2), ("south", 1080 - center.2),
                                 ("west", center.1), ("east", 1920 - center.1)]
  (ds.foldl (fun best c => if c.2 < best.2 then c else best) ("north", center.2)).1

/-- `MultiObjectTracker._create_new_track`. -/
def create_new_track (s : TrackerState) (detection : Detection) (frame_number : ℤ) :
    TrackerState :=
  let track_id := s.next_track_id
  let t0 : Track :=
    { track_id := track_id, class_name := detection.class_name,
      class_id := detection.class_id, confidence := detection.confidence,
      bbox := detection.bbox, center := detection.center,
      first_seen_frame := frame_number, last_seen_frame := frame_number,
      frames_tracked := 1 }
  let t : Track :=
    { t0 with positions := dequePush 30 t0.positions t0.center,
              confidences := dequePush 30 t0.confidences t0.confidence,
              frame_history := dequePush 30 t0.frame_history frame_number,
              entry_point := some (get_entry_point t0.center) }
  { s with next_track_id := track_id + 1,
           tracked_objects := dset s.tracked_objects track_id t,
           total_tracks_created := s.total_tracks_created + 1 }

/-- `MultiObjectTracker._handle_lost_track` (the unused `frame_number`
parameter of the source is dropped): bump `frames_lost`; at
`max_frames_lost` the track goes inactive, records an exit point and — when
long enough — counts as completed. -/
def handle_lost_track (s : TrackerState) (track_id : ℕ) : TrackerState :=
  match dget s.tracked_objects track_id with
  | none => s
  | some track =>
    let t1 := { track with frames_lost := track.frames_lost + 1 }
    if max_frames_lost ≤ t1.frames_lost then
      let t2 := { t1 with is_active := false,
                          exit_point := some (get_entry_point t1.center) }
      let done : ℕ := if min_track_length ≤ t2.frames_tracked then 1 else 0
      { s with tracked_objects := dset s.tracked_objects track_id t2,
               total_tracks_completed := s.total_tracks_completed + done }
    else { s with tracked_objects := dset s.tracked_objects track_id t1 }

/-- `MultiObjectTracker._cleanup_inactive_tracks`: drop tracks inactive and
last seen more than 100 frames before the current frame. -/
def cleanup_inactive_tracks (s : TrackerState) : TrackerState :=
  let keep : ℕ × Track → Bool :=
    fun p => !(!p.2.is_active && decide (100 < s.frame_count - p.2.last_seen_frame))
  { s with tracked_objects := s.tracked_objects.filter keep }

/-- The per-association step of `MultiObjectTracker.update` step 3.  The
`none` branch is unreachable: associations only name keys of the table. -/
def applyAssociation (frame_number : ℤ) (st : TrackerState) (td : ℕ × Detection) :
    TrackerState :=
  match dget st.tracked_objects td.1 with
  | none => st
  | some tr =>
    let ct := update_track st.counting_lines st.crossing_counts tr td.2 frame_number
    { st with crossing_counts := ct.1,
              tracked_objects := dset st.tracked_objects td.1 ct.2 }

/-- `MultiObjectTracker.update`: record the frame number, associate, update
matched tracks, create tracks for unmatched detections, age unmatched tracks,
clean up, and return the active tracks. -/
def trackerUpdate (s0 : TrackerState) (dets : List Detection) (frame_number : ℤ) :
    TrackerState × List Track :=
  let s1 := { s0 with frame_count := frame_number }
  let r := associate_detections s1 dets
  let s2 := r.associations.foldl (applyAssociation frame_number) s1
  let s3 := r.unmatched_detections.foldl
    (fun st d => create_new_track st d frame_number) s2
  let s4 := r.unmatched_tracks.foldl (fun st tid => handle_lost_track st tid) s3
  let s5 := cleanup_inactive_tracks s4
  (s5, (s5.tracked_objects.filter (fun p => p.2.is_active)).map (fun p => p.2))

/-! ### Statistics (`MultiObjectTracker.get_tracking_statistics`) -/

/-- The statistics record (the per-class breakdown, a read-only regrouping of
the same track table, is not modelled). -/
structure TrackingStatistics where
  active_tracks : ℕ
  completed_tracks : ℕ
  total_tracks_created : ℕ
  crossing_counts : CrossCounts
  average_track_length : ℚ
deriving DecidableEq

/-- `MultiObjectTracker.get_tracking_statistics`: active and completed counts
are computed over the tracks still present in the table; a completed track is
inactive with `frames_tracked ≥ min_track_length`; the average length is the
mean `frames_tracked` over those (0 when none). -/
def get_tracking_statistics (s : TrackerState) : TrackingStatistics :=
  let completed := s.tracked_objects.filter
    (fun p => !p.2.is_active && decide (min_track_length ≤ p.2.frames_tracked))
  { active_tracks := (s.tracked_objects.filter (fun p => p.2.is_active)).length,
    completed_tracks := completed.length,
    total_tracks_created := s.total_tracks_created,
    crossing_counts := s.crossing_counts,
    average_track_length :=
      if completed.isEmpty then 0
      else ((completed.map (fun p => (p.2.frames_tracked : ℚ))).sum) / completed.length }

/-! ## Theorems for the zone engine claims -/

theorem point_in_polygon_isSome (p : ℚ × ℚ) (poly : List (ℚ × ℚ)) (h : poly ≠ []) :
    ∃ b, point_in_polygon p poly = some b := by
  cases poly with
  | nil => exact absurd rfl h
  | cons p0 rest => exact ⟨_, rfl⟩

theorem zoneHit_eq_activeZoneContains (zones : List Zone) (p : ℚ × ℚ)
    (hz : ∀ z ∈ zones, z.active = true → z.polygon ≠ []) :
    zoneHit zones p = some (activeZoneContains zones p) := by
  induction zones with
  | nil => rfl
  | cons z rest ih =>
    have hrest : ∀ z' ∈ rest, z'.active = true → z'.polygon ≠ [] :=
      fun z' hm => hz z' (List.mem_cons_of_mem _ hm)
    by_cases ha : z.active
    · obtain ⟨b, hb⟩ :=
        point_in_polygon_isSome p z.polygon (hz z (List.mem_cons_self _ _) ha)
      cases b
      · simp [zoneHit, activeZoneContains, ha, hb, ih hrest, activeZoneContains]
      · simp [zoneHit, activeZoneContains, ha, hb]
    · simp only [Bool.not_eq_true] at ha
      simp [zoneHit, activeZoneContains, ha, ih hrest]

theorem detDecision_eq_specKeep (excl incl : List Zone) (d : Detection)
    (hz : ∀ z ∈ excl ++ incl, z.active = true → z.polygon ≠ []) :
    detDecision excl incl d = some (specKeep excl incl d) := by
  have hex : ∀ z ∈ excl, z.active = true → z.polygon ≠ [] :=
    fun z hm => hz z (List.mem_append_left _ hm)
  have hin : ∀ z ∈ incl, z.active = true → z.polygon ≠ [] :=
    fun z hm => hz z (List.mem_append_right _ hm)
  unfold detDecision specKeep
  simp only []
  rw [zoneHit_eq_activeZoneContains _ _ hex]
  cases hce : activeZoneContains excl
      ((pyInt d.center.1 : ℤ), (pyInt d.center.2 : ℤ)) with
  | true => simp
  | false =>
    by_cases hie : incl.isEmpty
    · simp [hie]
    · simp only [hie, if_false, Bool.not_false, Bool.true_and]
      rw [zoneHit_eq_activeZoneContains _ _ hin]
      simp [hie]

theorem filterLoop_eq (excl incl : List Zone)
    (hz : ∀ z ∈ excl ++ incl, z.active = true → z.polygon ≠ []) :
    ∀ dets : List Detection,
      filterLoop excl incl dets =
        some ((dets.filter (specKeep excl incl)).map
          (fun d => { d with roi_filtered := true }))
  | [] => rfl
  | d :: ds => by
    rw [filterLoop, detDecision_eq_specKeep excl incl d hz]
    cases hk : specKeep excl incl d
    · simp [List.filter_cons, hk, filterLoop_eq excl incl hz ds]
    · simp [List.filter_cons, hk, filterLoop_eq excl incl hz ds]

/-- C1: `filter_detections` drops a detection exactly when its center lies in
some active exclusion zone; otherwise, with a nonempty inclusion-zone list it
is kept iff the center lies in some active inclusion zone, and with no
inclusion zones every non-excluded detection is kept (exclusion is decided
first, so an excluded detection never consults the inclusion zones).  `specKeep`
is that decision written from the spec's words; the hypothesis keeps every
active zone's polygon readable (the empty-polygon error path is claim C7's
business). -/
theorem C1_filter_detections_keeps_iff (excl incl : List Zone) (dets : List Detection)
    (hz : ∀ z ∈ excl ++ incl, z.active = true → z.polygon ≠ []) :
    filter_detections excl incl dets =
      some (if incl.isEmpty ∧ excl.isEmpty then dets
            else (dets.filter (specKeep excl incl)).map
              (fun d => { d with roi_filtered := true })) := by
  unfold filter_detections
  split
  · rfl
  · rw [filterLoop_eq excl incl hz dets]

def c1_excl_zone : Zone :=
  { name := "arbre", ztype := "exclusion",
    polygon := [(0, 0), (96, 0), (64, 192), (0, 144)], active := true }

def c1_det_in : Detection :=
  { class_name := "car", class_id := 2, confidence := 1/2,
    bbox := [40, 90, 60, 110], center := (50, 100) }

def c1_det_out : Detection :=
  { class_name := "car", class_id := 2, confidence := 1/2,
    bbox := [390, 90, 410, 110], center := (400, 100) }

set_option maxRecDepth 4000 in
unseal Rat.mul Rat.sub Rat.add Rat.inv in
theorem C1_filter_detections_keeps_iff_witness :
    (∀ z ∈ [c1_excl_zone] ++ ([] : List Zone), z.active = true → z.polygon ≠ []) ∧
    filter_detections [c1_excl_zone] [] [c1_det_in, c1_det_out] =
      some (if ([] : List Zone).isEmpty ∧ [c1_excl_zone].isEmpty then
              [c1_det_in, c1_det_out]
            else ([c1_det_in, c1_det_out].filter (specKeep [c1_excl_zone] [])).map
              (fun d => { d with roi_filtered := true })) :=
  ⟨by decide, C1_filter_detections_keeps_iff [c1_excl_zone] [] [c1_det_in, c1_det_out]
    (by decide)⟩

/-! ## The ray-casting parity equivalence (claim C5) -/

theorem xinters_le_max (a b : ℚ × ℚ) (y : ℚ) (hlt : min a.2 b.2 < y)
    (hle : y ≤ max a.2 b.2) :
    (y - a.2) * (b.1 - a.1) / (b.2 - a.2) + a.1 ≤ max a.1 b.1 := by
  rcases lt_trichotomy a.2 b.2 with h | h | h
  · rw [min_eq_left h.le] at hlt
    rw [max_eq_right h.le] at hle
    have hd : (0 : ℚ) < b.2 - a.2 := by linarith
    have e1 : (y - a.2) * (b.1 - a.1) / (b.2 - a.2) =
        (y - a.2) / (b.2 - a.2) * (b.1 - a.1) := by ring
    rw [e1]
    have ht0 : 0 < (y - a.2) / (b.2 - a.2) := div_pos (by linarith) hd
    have ht1 : (y - a.2) / (b.2 - a.2) ≤ 1 := (div_le_one hd).mpr (by linarith)
    rcases le_total a.1 b.1 with hx | hx
    · rw [max_eq_right hx]
      nlinarith
    · rw [max_eq_left hx]
      nlinarith
  · rw [h] at hlt hle
    simp at hlt hle
    linarith
  · rw [min_eq_right h.le] at hlt
    rw [max_eq_left h.le] at hle
    have hd : b.2 - a.2 < 0 := by linarith
    have e1 : (y - a.2) * (b.1 - a.1) / (b.2 - a.2) =
        (y - a.2) / (b.2 - a.2) * (b.1 - a.1) := by ring
    rw [e1]
    have ht0 : 0 ≤ (y - a.2) / (b.2 - a.2) :=
      div_nonneg_iff.mpr (Or.inr ⟨by linarith, hd.le⟩)
    have ht1 : (y - a.2) / (b.2 - a.2) ≤ 1 :=
      div_le_one_iff.mpr (Or.inr (Or.inr ⟨hd, by linarith⟩))
    rcases le_total a.1 b.1 with hx | hx
    · rw [max_eq_right hx]
      nlinarith
    · rw [max_eq_left hx]
      nlinarith

/-- The source's per-edge toggle condition is exactly the spec's ray-crossing
test for that edge. -/
theorem pipStep_eq (x y : ℚ) (b : Bool) (p1 p2 : ℚ × ℚ) :
    pipStep x y (b, p1) p2 = (b != raySegCross x y p1 p2, p2) := by
  unfold pipStep raySegCross
  simp only []
  have hiff : (min p1.2 p2.2 < y ∧ y ≤ max p1.2 p2.2 ∧ x ≤ max p1.1 p2.1 ∧
      (p1.1 = p2.1 ∨ x ≤ (y - p1.2) * (p2.1 - p1.1) / (p2.2 - p1.2) + p1.1)) ↔
      (p1.2 ≠ p2.2 ∧ min p1.2 p2.2 < y ∧ y ≤ max p1.2 p2.2 ∧
        x ≤ (y - p1.2) * (p2.1 - p1.1) / (p2.2 - p1.2) + p1.1) := by
    constructor
    · rintro ⟨h1, h2, h3, h4⟩
      have hne : p1.2 ≠ p2.2 := by
        intro he
        rw [he] at h1 h2
        simp at h1 h2
        linarith
      refine ⟨hne, h1, h2, ?_⟩
      rcases h4 with he | hx
      · rw [he]
        have : (y - p1.2) * (p2.1 - p2.1) / (p2.2 - p1.2) + p2.1 = p2.1 := by ring
        rw [this]
        rw [he, max_self] at h3
        exact h3
      · exact hx
    · rintro ⟨hne, h1, h2, h4⟩
      exact ⟨h1, h2, le_trans h4 (xinters_le_max p1 p2 y h1 h2), Or.inr h4⟩
  by_cases hc : min p1.2 p2.2 < y ∧ y ≤ max p1.2 p2.2 ∧ x ≤ max p1.1 p2.1 ∧
      (p1.1 = p2.1 ∨ x ≤ (y - p1.2) * (p2.1 - p1.1) / (p2.2 - p1.2) + p1.1)
  · rw [if_pos hc, decide_eq_true (hiff.mp hc)]
    cases b <;> rfl
  · rw [if_neg hc, decide_eq_false (fun hr => hc (hiff.mpr hr))]
    cases b <;> rfl

theorem zip_append_singleton {α : Type} (a : α) :
    ∀ (l1 l2 : List α), l2.length ≤ l1.length →
      (l1 ++ [a]).zip l2 = l1.zip l2
  | _, [], _ => by simp
  | [], _ :: _, h => by simp at h
  | x :: l1, y :: l2, h => by
    simp only [List.cons_append, List.zip_cons_cons, List.cons.injEq, true_and]
    exact zip_append_singleton a l1 l2 (by simpa using h)

/-- The ray-casting fold computes the crossing parity of the traversed
edges. -/
theorem pip_fold (x y : ℚ) :
    ∀ (l : List (ℚ × ℚ)) (b : Bool) (cur : ℚ × ℚ),
      (l.foldl (pipStep x y) (b, cur)).1 =
        (b != decide ((((cur :: l).zip l).countP
          (fun e => raySegCross x y e.1 e.2)) % 2 = 1))
  | [], b, cur => by simp
  | a :: l, b, cur => by
    rw [List.foldl_cons, pipStep_eq, pip_fold x y l _ a]
    have hzip : (cur :: a :: l).zip (a :: l) = (cur, a) :: ((a :: l).zip l) := by
      simp [List.zip_cons_cons]
    rw [hzip, List.countP_cons]
    cases hc : raySegCross x y cur a
    · simp [hc]
    · rcases Nat.mod_two_eq_zero_or_one (((a :: l).zip l).countP
        (fun e => raySegCross x y e.1 e.2)) with h2 | h2 <;>
        simp [hc, Nat.add_mod, h2]

/-- C5: for a polygon with at least 3 vertices, `_point_in_polygon` answers
true exactly when the horizontal ray from the point toward +x infinity
crosses an odd number of polygon edges, horizontal edges excluded
(`raySegCross` is the spec-side crossing test, `raycastCrossings` the crossing
count). -/
theorem C5_point_in_polygon_parity (p : ℚ × ℚ) (poly : List (ℚ × ℚ))
    (h : 3 ≤ poly.length) :
    point_in_polygon p poly = some (decide (raycastCrossings p poly % 2 = 1)) := by
  cases poly with
  | nil => simp at h
  | cons p0 rest =>
    have h1 : point_in_polygon p (p0 :: rest) =
        some (((rest ++ [p0]).foldl (pipStep p.1 p.2) (false, p0)).1) := rfl
    rw [h1, pip_fold]
    have hzip : (p0 :: (rest ++ [p0])).zip (rest ++ [p0]) =
        (p0 :: rest).zip (rest ++ [p0]) := by
      have := zip_append_singleton p0 (p0 :: rest) (rest ++ [p0]) (by simp)
      simpa using this
    rw [hzip]
    simp [raycastCrossings, polygonEdges]

set_option maxRecDepth 4000 in
unseal Rat.mul Rat.sub Rat.add Rat.inv in
theorem C5_point_in_polygon_parity_witness :
    3 ≤ ([(0, 0), (4, 0), (0, 4)] : List (ℚ × ℚ)).length ∧
    point_in_polygon (1, 1) [(0, 0), (4, 0), (0, 4)] =
      some (decide (raycastCrossings (1, 1) [(0, 0), (4, 0), (0, 4)] % 2 = 1)) :=
  ⟨by decide, C5_point_in_polygon_parity (1, 1) [(0, 0), (4, 0), (0, 4)] (by decide)⟩

/-! ## Degenerate polygons (claim C7) -/

theorem raySegCross_symm (x y : ℚ) (a b : ℚ × ℚ) :
    raySegCross x y a b = raySegCross x y b a := by
  unfold raySegCross
  rw [decide_eq_decide]
  by_cases hne : a.2 = b.2
  · constructor
    · rintro ⟨h1, _⟩; exact absurd hne h1
    · rintro ⟨h1, _⟩; exact absurd hne.symm h1
  · have hx : (y - a.2) * (b.1 - a.1) / (b.2 - a.2) + a.1 =
        (y - b.2) * (a.1 - b.1) / (a.2 - b.2) + b.1 := by
      have h1 : b.2 - a.2 ≠ 0 := fun h => hne (by linarith)
      have h2 : a.2 - b.2 ≠ 0 := fun h => hne (by linarith)
      field_simp
      ring
    constructor
    · rintro ⟨h1, h2, h3, h4⟩
      refine ⟨Ne.symm h1, ?_, ?_, ?_⟩
      · rwa [min_comm]
      · rwa [max_comm]
      · rwa [hx] at h4
    · rintro ⟨h1, h2, h3, h4⟩
      refine ⟨Ne.symm h1, ?_, ?_, ?_⟩
      · rwa [min_comm]
      · rwa [max_comm]
      · rwa [← hx] at h4

theorem point_in_polygon_singleton (p a : ℚ × ℚ) :
    point_in_polygon p [a] = some false := by
  have h1 : point_in_polygon p [a] =
      some ((([] ++ [a]).foldl (pipStep p.1 p.2) (false, a)).1) := rfl
  rw [h1, pip_fold]
  simp [raySegCross]

theorem point_in_polygon_pair (p a b : ℚ × ℚ) :
    point_in_polygon p [a, b] = some false := by
  have h1 : point_in_polygon p [a, b] =
      some ((([b] ++ [a]).foldl (pipStep p.1 p.2) (false, a)).1) := rfl
  rw [h1, pip_fold]
  have hzip : ((a :: ([b] ++ [a])).zip ([b] ++ [a])) = [(a, b), (b, a)] := rfl
  rw [hzip]
  have hsym := raySegCross_symm p.1 p.2 b a
  cases hc : raySegCross p.1 p.2 a b <;>
    simp [List.countP_cons, hc, hsym, hc ▸ hsym]

def c7_zone : Zone :=
  { name := "vide", ztype := "exclusion", polygon := [], active := true }

def c7_det : Detection :=
  { class_name := "car", class_id := 2, confidence := 1/2,
    bbox := [0, 0, 10, 10], center := (5, 5) }

/-- C7: a zone whose polygon has 1 or 2 vertices indeed never contains any
point (so it can neither exclude nor include a detection), but an *empty*
polygon is fatal: `polygon[0]` raises `IndexError`, so filtering a single
detection against one active empty-polygon exclusion zone errors out instead
of treating the zone as inactive — the last two conjuncts evaluate the code
at that failing input. -/
theorem C7_empty_polygon_is_fatal :
    (∀ p a : ℚ × ℚ, point_in_polygon p [a] = some false) ∧
    (∀ p a b : ℚ × ℚ, point_in_polygon p [a, b] = some false) ∧
    point_in_polygon (5, 5) ([] : List (ℚ × ℚ)) = none ∧
    filter_detections [c7_zone] [] [c7_det] = none := by
  refine ⟨point_in_polygon_singleton, point_in_polygon_pair, rfl, ?_⟩
  decide

/-! ## Movement-coherence filter (claim C9) -/

/-- C9: one `update_detection_movement` call stores, for the identifier, a
suffix of the old history extended by the new position (the most recent
samples), never more than 10 of them (given the invariant bound on the way
in); and the call answers `false` exactly when at least 3 samples are stored
and the stored samples' displacement-magnitude variance exceeds
`max_jitter ^ 2` or their mean displacement is below `min_movement` — in
particular with fewer than 3 samples it always answers `true`. -/
theorem C9_movement_filter_spec (mm mj : ℝ) (hist : List (ℕ × List (ℝ × ℝ)))
    (tid : ℕ) (pos : ℝ × ℝ) :
    ((dget (update_detection_movement mm mj hist tid pos).1 tid).getD []).IsSuffix
        (((dget hist tid).getD []) ++ [pos]) ∧
    (((dget hist tid).getD []).length ≤ 10 →
      ((dget (update_detection_movement mm mj hist tid pos).1 tid).getD []).length ≤ 10) ∧
    ((update_detection_movement mm mj hist tid pos).2 = false ↔
      3 ≤ ((dget (update_detection_movement mm mj hist tid pos).1 tid).getD []).length ∧
        (listVar (movementMagnitudes
            ((dget (update_detection_movement mm mj hist tid pos).1 tid).getD [])) > mj ^ 2 ∨
         listMean (movementMagnitudes
            ((dget (update_detection_movement mm mj hist tid pos).1 tid).getD [])) < mm)) := by
  unfold update_detection_movement
  simp only [dget_dset_self, Option.getD_some]
  set h : List (ℝ × ℝ) := (dget hist tid).getD [] with hh
  set h2 : List (ℝ × ℝ) :=
    if 10 < (h ++ [pos]).length then (h ++ [pos]).tail else (h ++ [pos]) with hh2
  refine ⟨?_, ?_, ?_⟩
  · by_cases hlen : 10 < (h ++ [pos]).length
    · rw [hh2, if_pos hlen]
      exact List.tail_suffix _
    · rw [hh2, if_neg hlen]
  · intro hle
    by_cases hlen : 10 < (h ++ [pos]).length
    · rw [hh2, if_pos hlen]
      simp only [List.length_tail, List.length_append, List.length_singleton]
      omega
    · rw [hh2, if_neg hlen]
      omega
  · by_cases h3 : 3 ≤ h2.length
    · rw [if_pos h3]
      unfold analyze_movement_coherence
      rw [if_neg (by omega)]
      simp only []
      by_cases hv : listVar (movementMagnitudes h2) > mj ^ 2
      · simp [hv, h3]
      · by_cases hm : listMean (movementMagnitudes h2) < mm
        · simp [hv, hm, h3]
        · simp [hv, hm, h3]
    · rw [if_neg h3]
      simp [h3]

theorem C9_movement_filter_spec_witness :
    ((dget (update_detection_movement 5 50 [] 1 (0, 0)).1 1).getD []).IsSuffix
        (((dget ([] : List (ℕ × List (ℝ × ℝ))) 1).getD []) ++ [(0, 0)]) ∧
    (((dget ([] : List (ℕ × List (ℝ × ℝ))) 1).getD []).length ≤ 10 →
      ((dget (update_detection_movement 5 50 [] 1 (0, 0)).1 1).getD []).length ≤ 10) ∧
    ((update_detection_movement 5 50 [] 1 (0, 0)).2 = false ↔
      3 ≤ ((dget (update_detection_movement 5 50 [] 1 (0, 0)).1 1).getD []).length ∧
        (listVar (movementMagnitudes
            ((dget (update_detection_movement 5 50 [] 1 (0, 0)).1 1).getD [])) > (50 : ℝ) ^ 2 ∨
         listMean (movementMagnitudes
            ((dget (update_detection_movement 5 50 [] 1 (0, 0)).1 1).getD [])) < (5 : ℝ))) :=
  C9_movement_filter_spec 5 50 [] 1 (0, 0)

/-! ## Greedy association is a class- and distance-gated partial matching
(claim C4) -/

theorem getElem?_enum {α : Type} (l : List α) (n : ℕ) :
    l.enum[n]? = l[n]?.map (fun a => (n, a)) := by
  rw [List.getElem?_enum]

theorem mEntry_eq (m : List (List (Option ℚ))) (i j : ℕ) :
    mEntry m i j = (m[i]?.getD [])[j]?.getD none := by
  unfold mEntry
  rw [List.getD_eq_getElem?_getD, List.getD_eq_getElem?_getD]

theorem mEntry_invalidate (m : List (List (Option ℚ))) (a b i j : ℕ) :
    mEntry (invalidateRowCol m a b) i j =
      if i = a ∨ j = b then none else mEntry m i j := by
  rw [mEntry_eq, mEntry_eq]
  unfold invalidateRowCol
  rw [List.getElem?_map, getElem?_enum]
  rcases hi : m[i]? with _ | row
  · simp
  · simp only [Option.map_some', Option.getD_some]
    by_cases hia : i = a
    · rw [if_pos hia, if_pos (Or.inl hia)]
      rw [List.getElem?_map]
      rcases hj : row[j]? with _ | v <;> simp [hj]
    · rw [if_neg hia, List.getElem?_map, getElem?_enum]
      rcases hj : row[j]? with _ | v
      · simp [hj, hia]
      · by_cases hjb : j = b <;> simp [hj, hjb, hia]

theorem mEntry_invalidate_ne_none {m : List (List (Option ℚ))} {a b i j : ℕ}
    (h : mEntry (invalidateRowCol m a b) i j ≠ none) :
    i ≠ a ∧ j ≠ b ∧ mEntry m i j ≠ none := by
  rw [mEntry_invalidate] at h
  by_cases hc : i = a ∨ j = b
  · rw [if_pos hc] at h
    exact absurd rfl h
  · rw [if_neg hc] at h
    push_neg at hc
    exact ⟨hc.1, hc.2, h⟩

theorem mEntry_build_ne_none {tracks : List Track} {dets : List Detection}
    {i j : ℕ} (h : mEntry (buildCostMatrix tracks dets) i j ≠ none) :
    i < tracks.length ∧ j < dets.length ∧
      costEntry (tracks.getD i defaultTrack) (dets.getD j defaultDetection) ≠ none := by
  rw [mEntry_eq] at h
  unfold buildCostMatrix at h
  rw [List.getElem?_map] at h
  rcases hi : tracks[i]? with _ | t
  · rw [hi] at h
    simp at h
  · rw [hi] at h
    simp only [Option.map_some', Option.getD_some, List.getElem?_map] at h
    rcases hj : dets[j]? with _ | d
    · rw [hj] at h
      simp at h
    · rw [hj] at h
      simp only [Option.map_some', Option.getD_some] at h
      have hi' : i < tracks.length := by
        by_contra hge
        rw [List.getElem?_eq_none (by omega)] at hi
        exact Option.noConfusion hi
      have hj' : j < dets.length := by
        by_contra hge
        rw [List.getElem?_eq_none (by omega)] at hj
        exact Option.noConfusion hj
      refine ⟨hi', hj', ?_⟩
      have ht : tracks.getD i defaultTrack = t := by
        rw [List.getD_eq_getElem?_getD, hi, Option.getD_some]
      have hd : dets.getD j defaultDetection = d := by
        rw [List.getD_eq_getElem?_getD, hj, Option.getD_some]
      rw [ht, hd]
      exact h

theorem costEntry_ne_none {t : Track} {d : Detection} (h : costEntry t d ≠ none) :
    t.class_id = d.class_id ∧ sq_distance t.center d.center < max_distance_sq := by
  unfold costEntry at h
  by_cases h1 : t.class_id = d.class_id
  · rw [if_pos h1] at h
    by_cases h2 : sq_distance t.center d.center < max_distance_sq
    · exact ⟨h1, h2⟩
    · rw [if_neg h2] at h
      exact absurd rfl h
  · rw [if_neg h1] at h
    exact absurd rfl h

theorem greedyAssign_spec :
    ∀ (fuel : ℕ) (m : List (List (Option ℚ))),
      ((greedyAssign fuel m).map Prod.fst).Nodup ∧
      ((greedyAssign fuel m).map Prod.snd).Nodup ∧
      ∀ ij ∈ greedyAssign fuel m, mEntry m ij.1 ij.2 ≠ none
  | 0, m => by simp [greedyAssign]
  | fuel + 1, m => by
    simp only [greedyAssign]
    cases he : mEntry m (argminCell m).1 (argminCell m).2.1 with
    | none => simp
    | some v =>
      obtain ⟨ih1, ih2, ih3⟩ := greedyAssign_spec fuel
        (invalidateRowCol m (argminCell m).1 (argminCell m).2.1)
      have hdist : ∀ ij ∈ greedyAssign fuel
          (invalidateRowCol m (argminCell m).1 (argminCell m).2.1),
          ij.1 ≠ (argminCell m).1 ∧ ij.2 ≠ (argminCell m).2.1 ∧
            mEntry m ij.1 ij.2 ≠ none :=
        fun ij hm => mEntry_invalidate_ne_none (ih3 ij hm)
      refine ⟨?_, ?_, ?_⟩
      · simp only [List.map_cons, List.nodup_cons]
        refine ⟨?_, ih1⟩
        intro hmem
        obtain ⟨ij, hij, hfst⟩ := List.mem_map.mp hmem
        exact (hdist ij hij).1 hfst
      · simp only [List.map_cons, List.nodup_cons]
        refine ⟨?_, ih2⟩
        intro hmem
        obtain ⟨ij, hij, hsnd⟩ := List.mem_map.mp hmem
        exact (hdist ij hij).2.1 hsnd
      · intro ij hij
        rcases List.mem_cons.mp hij with h1 | h2
        · rw [h1]
          rw [he]
          exact Option.noConfusion
        · exact (hdist ij h2).2.2

/-- Boolean check on one committed pair: valid indices, equal classes and a
squared center distance below `max_distance²`. -/
def c4good (s : TrackerState) (dets : List Detection) (ij : ℕ × ℕ) : Bool :=
  let active := s.tracked_objects.filter (fun p => p.2.is_active)
  decide (ij.1 < active.length) && decide (ij.2 < dets.length) &&
  decide ((active.getD ij.1 (0, defaultTrack)).2.class_id =
      (dets.getD ij.2 defaultDetection).class_id) &&
  decide (sq_distance (active.getD ij.1 (0, defaultTrack)).2.center
      (dets.getD ij.2 defaultDetection).center < max_distance_sq)

theorem getD_map_snd {l : List (ℕ × Track)} {i : ℕ} (h : i < l.length) :
    (l.map (fun p => p.2)).getD i defaultTrack = (l.getD i (0, defaultTrack)).2 := by
  rw [List.getD_eq_getElem?_getD, List.getD_eq_getElem?_getD, List.getElem?_map,
      List.getElem?_eq_getElem h]
  simp

/-- C4: within one update, greedy association commits a one-to-one partial
matching — no track index and no detection index appears twice among the
committed pairs — and every committed pair joins a valid active-track index
and detection index whose classes agree and whose centers are closer than
`max_distance` (squared comparison; see `calculate_distance_lt_const_iff`). -/
theorem C4_association_partial_matching (s : TrackerState) (dets : List Detection) :
    (((associate_detections s dets).pairs.map Prod.fst).Nodup) ∧
    (((associate_detections s dets).pairs.map Prod.snd).Nodup) ∧
    (associate_detections s dets).pairs.all (c4good s dets) = true := by
  unfold associate_detections
  set active := s.tracked_objects.filter (fun p => p.2.is_active) with hactive
  by_cases hemp : s.tracked_objects.isEmpty ∨ active.isEmpty
  · rw [if_pos hemp]
    simp
  · rw [if_neg hemp]
    simp only []
    obtain ⟨h1, h2, h3⟩ := greedyAssign_spec
      (min (active.map (fun p => p.1)).length dets.length)
      (buildCostMatrix (active.map (fun p => p.2)) dets)
    refine ⟨h1, h2, ?_⟩
    rw [List.all_eq_true]
    intro ij hij
    obtain ⟨hi, hj, hcost⟩ := mEntry_build_ne_none (h3 ij hij)
    rw [List.length_map] at hi
    obtain ⟨hcls, hdst⟩ := costEntry_ne_none hcost
    rw [getD_map_snd hi] at hcls hdst
    unfold c4good
    simp only [← hactive, Bool.and_eq_true, decide_eq_true_eq]
    exact ⟨⟨⟨hi, hj⟩, hcls⟩, hdst⟩

/-! ## Crossing flag and counters (claim C6) -/

theorem crossStep_flag_true (old : ℚ × ℚ) (c : CrossCounts) (t : Track)
    (li : CountingLine) (h : t.has_crossed_line = true) :
    crossStep old (c, t) li = (c, t) := by
  unfold crossStep
  simp only []
  split
  · cases get_crossing_direction old t.center li with
    | none => rfl
    | some d => simp [h]
  · rfl

theorem check_flag_true (old : ℚ × ℚ) :
    ∀ (lines : List CountingLine) (c : CrossCounts) (t : Track),
      t.has_crossed_line = true → check_line_crossings lines c t old = (c, t)
  | [], _, _, _ => rfl
  | li :: rest, c, t, h => by
    unfold check_line_crossings
    rw [List.foldl_cons, crossStep_flag_true old c t li h]
    exact check_flag_true old rest c t h

theorem crossStep_cases (old : ℚ × ℚ) (c : CrossCounts) (t : Track)
    (li : CountingLine) (hf : t.has_crossed_line = false) :
    crossStep old (c, t) li = (c, t) ∨
    ∃ d, get_crossing_direction old t.center li = some d ∧
      crossStep old (c, t) li = (incCount c d, { t with has_crossed_line := true }) := by
  unfold crossStep
  simp only []
  split
  · cases hd : get_crossing_direction old t.center li with
    | none => exact Or.inl rfl
    | some d =>
      right
      exact ⟨d, rfl, by simp [hf]⟩
  · exact Or.inl rfl

theorem totalCounts_incCount (c : CrossCounts) (old new : ℚ × ℚ)
    (li : CountingLine) (d : String)
    (h : get_crossing_direction old new li = some d) :
    totalCounts (incCount c d) = totalCounts c + 1 := by
  unfold get_crossing_direction at h
  split_ifs at h <;> injection h with h <;> subst h <;>
    simp [incCount, totalCounts] <;> omega

theorem check_counter_exact_false (old : ℚ × ℚ) :
    ∀ (lines : List CountingLine) (c : CrossCounts) (t : Track),
      t.has_crossed_line = false →
      totalCounts (check_line_crossings lines c t old).1 =
        totalCounts c +
          (if (check_line_crossings lines c t old).2.has_crossed_line then 1 else 0)
  | [], c, t, hf => by
    unfold check_line_crossings
    simp [hf]
  | li :: rest, c, t, hf => by
    unfold check_line_crossings
    rw [List.foldl_cons]
    rcases crossStep_cases old c t li hf with h | ⟨d, hd, h⟩
    · rw [h]
      exact check_counter_exact_false old rest c t hf
    · rw [h]
      have hrest := check_flag_true old rest (incCount c d)
        { t with has_crossed_line := true } rfl
      unfold check_line_crossings at hrest
      rw [hrest]
      simp [totalCounts_incCount c old t.center li d hd]

/-- Once a track's `has_crossed_line` flag is set, a crossing check leaves
both the track and every counter untouched; and in general one check adds
exactly one crossing to the total exactly when the flag transitions
false→true during that check. -/
theorem check_line_crossings_flag_and_counters (lines : List CountingLine)
    (c : CrossCounts) (t : Track) (old : ℚ × ℚ) :
    (t.has_crossed_line = true → check_line_crossings lines c t old = (c, t)) ∧
    totalCounts (check_line_crossings lines c t old).1 =
      totalCounts c +
        (if (check_line_crossings lines c t old).2.has_crossed_line &&
            !t.has_crossed_line then 1 else 0) := by
  cases hf : t.has_crossed_line with
  | true =>
    refine ⟨fun _ => check_flag_true old lines c t hf, ?_⟩
    rw [check_flag_true old lines c t hf]
    simp [hf]
  | false =>
    refine ⟨fun h => absurd h Bool.false_ne_true, ?_⟩
    have := check_counter_exact_false old lines c t hf
    rw [this]
    simp [hf]

/-! ## Update-level bookkeeping: key sets, well-formedness, lookups through
the fold stages of `trackerUpdate` -/

theorem foldl_preserve {α β : Type} (P : β → Prop) (f : β → α → β) :
    ∀ (l : List α) (b : β), P b → (∀ b' x, P b' → x ∈ l → P (f b' x)) →
      P (l.foldl f b)
  | [], _, hb, _ => hb
  | x :: l, b, hb, hstep =>
    foldl_preserve P f l (f b x) (hstep b x hb (List.mem_cons_self x l))
      (fun b' y hb' hy => hstep b' y hb' (List.mem_cons_of_mem x hy))

theorem dkeys_cons {α : Type} (q : ℕ × α) (d : List (ℕ × α)) :
    dkeys (q :: d) = q.1 :: dkeys d := rfl

theorem dget_eq_none_iff {α : Type} (d : List (ℕ × α)) (k : ℕ) :
    dget d k = none ↔ k ∉ dkeys d := by
  induction d with
  | nil => simp [dget, dkeys]
  | cons q rest ih =>
    rw [dkeys_cons]
    by_cases hq : q.1 = k
    · simp [dget, hq]
    · simp only [dget, hq, if_false, List.mem_cons, not_or]
      rw [ih]
      constructor
      · intro h
        exact ⟨fun hc => hq hc.symm, h⟩
      · intro h
        exact h.2

theorem dkeys_dset_of_mem {α : Type} (d : List (ℕ × α)) (k : ℕ) (v : α)
    (h : dget d k ≠ none) : dkeys (dset d k v) = dkeys d := by
  induction d with
  | nil => exact absurd rfl h
  | cons q rest ih =>
    by_cases hq : q.1 = k
    · simp [dset, hq, dkeys_cons]
    · simp only [dget, hq, if_false] at h
      simp [dset, hq, dkeys_cons, ih h]

theorem dkeys_dset_of_not_mem {α : Type} (d : List (ℕ × α)) (k : ℕ) (v : α)
    (h : dget d k = none) : dkeys (dset d k v) = dkeys d ++ [k] := by
  induction d with
  | nil => simp [dset, dkeys]
  | cons q rest ih =>
    by_cases hq : q.1 = k
    · simp [dget, hq] at h
    · simp only [dget, hq, if_false] at h
      simp [dset, hq, dkeys_cons, ih h]

/-- Reachable-table well-formedness: distinct keys, all below the next fresh
identifier. -/
def WFState (s : TrackerState) : Prop :=
  (dkeys s.tracked_objects).Nodup ∧
    ∀ k ∈ dkeys s.tracked_objects, k < s.next_track_id

instance (s : TrackerState) : Decidable (WFState s) :=
  inferInstanceAs (Decidable (_ ∧ _))

theorem applyAssociation_keys (n : ℤ) (st : TrackerState) (td : ℕ × Detection) :
    dkeys (applyAssociation n st td).tracked_objects = dkeys st.tracked_objects ∧
    (applyAssociation n st td).next_track_id = st.next_track_id := by
  unfold applyAssociation
  cases hg : dget st.tracked_objects td.1 with
  | none => exact ⟨rfl, rfl⟩
  | some tr =>
    refine ⟨?_, rfl⟩
    exact dkeys_dset_of_mem _ _ _ (by rw [hg]; exact Option.noConfusion)

theorem handle_lost_keys (st : TrackerState) (tid : ℕ) :
    dkeys (handle_lost_track st tid).tracked_objects = dkeys st.tracked_objects ∧
    (handle_lost_track st tid).next_track_id = st.next_track_id := by
  unfold handle_lost_track
  cases hg : dget st.tracked_objects tid with
  | none => exact ⟨rfl, rfl⟩
  | some tr =>
    have hne : dget st.tracked_objects tid ≠ none := by
      rw [hg]; exact Option.noConfusion
    dsimp only
    by_cases hc : max_frames_lost ≤ tr.frames_lost + 1
    · rw [if_pos hc]
      exact ⟨dkeys_dset_of_mem _ _ _ hne, rfl⟩
    · rw [if_neg hc]
      exact ⟨dkeys_dset_of_mem _ _ _ hne, rfl⟩

theorem create_keys (st : TrackerState) (d : Detection) (n : ℤ)
    (h : st.next_track_id ∉ dkeys st.tracked_objects) :
    dkeys (create_new_track st d n).tracked_objects =
      dkeys st.tracked_objects ++ [st.next_track_id] ∧
    (create_new_track st d n).next_track_id = st.next_track_id + 1 := by
  unfold create_new_track
  exact ⟨dkeys_dset_of_not_mem _ _ _ ((dget_eq_none_iff _ _).mpr h), rfl⟩

theorem WF_applyAssociation (n : ℤ) (st : TrackerState) (td : ℕ × Detection)
    (h : WFState st) : WFState (applyAssociation n st td) := by
  obtain ⟨hk, hn⟩ := applyAssociation_keys n st td
  exact ⟨hk ▸ h.1, fun k hm => hn ▸ h.2 k (hk ▸ hm)⟩

theorem WF_handle_lost (st : TrackerState) (tid : ℕ) (h : WFState st) :
    WFState (handle_lost_track st tid) := by
  obtain ⟨hk, hn⟩ := handle_lost_keys st tid
  exact ⟨hk ▸ h.1, fun k hm => hn ▸ h.2 k (hk ▸ hm)⟩

theorem WF_create (st : TrackerState) (d : Detection) (n : ℤ) (h : WFState st) :
    WFState (create_new_track st d n) := by
  have hnm : st.next_track_id ∉ dkeys st.tracked_objects :=
    fun hm => lt_irrefl _ (h.2 _ hm)
  obtain ⟨hk, hn⟩ := create_keys st d n hnm
  constructor
  · rw [hk]
    apply List.Nodup.append h.1 (List.nodup_singleton _)
    intro k hk1 hk2
    simp only [List.mem_singleton] at hk2
    exact hnm (hk2 ▸ hk1)
  · intro k hm
    rw [hk] at hm
    rw [hn]
    rcases List.mem_append.mp hm with h1 | h1
    · exact Nat.lt_succ_of_lt (h.2 k h1)
    · simp at h1
      omega

theorem WF_cleanup (s : TrackerState) (h : WFState s) :
    WFState (cleanup_inactive_tracks s) := by
  unfold cleanup_inactive_tracks
  constructor
  · exact ((List.filter_sublist _).map _).nodup h.1
  · intro k hm
    simp only [dkeys, List.mem_map] at hm
    obtain ⟨p, hp, hpk⟩ := hm
    exact h.2 k (hpk ▸ List.mem_map.mpr ⟨p, List.mem_of_mem_filter hp, rfl⟩)

/-! ### What one update does to an individual track's fields -/

theorem crossStep_track (old : ℚ × ℚ) (st : CrossCounts × Track) (li : CountingLine) :
    (crossStep old st li).2 = st.2 ∨
    (crossStep old st li).2 = { st.2 with has_crossed_line := true } := by
  unfold crossStep
  dsimp only
  split
  · cases get_crossing_direction old st.2.center li with
    | none => exact Or.inl rfl
    | some d =>
      by_cases hf : st.2.has_crossed_line
      · simp [hf]
      · simp only [Bool.not_eq_true] at hf
        simp [hf]
  · exact Or.inl rfl

theorem check_track (old : ℚ × ℚ) :
    ∀ (lines : List CountingLine) (c : CrossCounts) (t : Track),
      (check_line_crossings lines c t old).2 = t ∨
      (check_line_crossings lines c t old).2 = { t with has_crossed_line := true }
  | [], _, _ => Or.inl rfl
  | li :: rest, c, t => by
    unfold check_line_crossings
    rw [List.foldl_cons]
    have hpr : crossStep old (c, t) li =
        ((crossStep old (c, t) li).1, (crossStep old (c, t) li).2) := rfl
    rw [hpr]
    rcases crossStep_track old (c, t) li with h | h
    · rw [h]
      exact check_track old rest _ t
    · rw [h]
      rcases check_track old rest (crossStep old (c, t) li).1
          { t with has_crossed_line := true } with h2 | h2
      · unfold check_line_crossings at h2
        exact Or.inr h2
      · unfold check_line_crossings at h2
        rw [h2]
        exact Or.inr rfl

theorem check_fields (old : ℚ × ℚ) (lines : List CountingLine) (c : CrossCounts)
    (t : Track) :
    (check_line_crossings lines c t old).2.frames_lost = t.frames_lost ∧
    (check_line_crossings lines c t old).2.is_active = t.is_active ∧
    (check_line_crossings lines c t old).2.last_seen_frame = t.last_seen_frame ∧
    (t.has_crossed_line = true →
      (check_line_crossings lines c t old).2.has_crossed_line = true) := by
  rcases check_track old lines c t with h | h <;> rw [h] <;> simp

theorem update_track_fields (lines : List CountingLine) (c : CrossCounts) (t : Track)
    (d : Detection) (n : ℤ) :
    (update_track lines c t d n).2.frames_lost = 0 ∧
    (update_track lines c t d n).2.is_active = t.is_active ∧
    (update_track lines c t d n).2.last_seen_frame = n ∧
    (t.has_crossed_line = true →
      (update_track lines c t d n).2.has_crossed_line = true) := by
  unfold update_track
  dsimp only
  split
  · obtain ⟨h1, h2, h3, h4⟩ := check_fields t.center lines c _
    exact ⟨h1, h2, h3, fun hf => h4 hf⟩
  · obtain ⟨h1, h2, h3, h4⟩ := check_fields t.center lines c _
    exact ⟨h1, h2, h3, fun hf => h4 hf⟩

/-! ### Lookup evolution through the fold stages of `trackerUpdate` -/

theorem applyAssociation_dget_ne (n : ℤ) (st : TrackerState) (td : ℕ × Detection)
    (tid : ℕ) (h : td.1 ≠ tid) :
    dget (applyAssociation n st td).tracked_objects tid = dget st.tracked_objects tid := by
  unfold applyAssociation
  cases dget st.tracked_objects td.1 with
  | none => rfl
  | some tr => exact dget_dset_ne _ _ _ _ h

theorem applyAssociation_dget_self (n : ℤ) (st : TrackerState) (td : ℕ × Detection)
    (tr : Track) (h : dget st.tracked_objects td.1 = some tr) :
    dget (applyAssociation n st td).tracked_objects td.1 =
      some (update_track st.counting_lines st.crossing_counts tr td.2 n).2 := by
  unfold applyAssociation
  rw [h]
  exact dget_dset_self _ _ _

theorem foldAssoc_next (n : ℤ) :
    ∀ (l : List (ℕ × Detection)) (st : TrackerState),
      (List.foldl (applyAssociation n) st l).next_track_id = st.next_track_id
  | [], _ => rfl
  | td :: l, st => by
    rw [List.foldl_cons, foldAssoc_next n l _, (applyAssociation_keys n st td).2]

theorem foldAssoc_dget_not_mem (n : ℤ) :
    ∀ (l : List (ℕ × Detection)) (st : TrackerState) (tid : ℕ),
      (∀ td ∈ l, td.1 ≠ tid) →
      dget (List.foldl (applyAssociation n) st l).tracked_objects tid =
        dget st.tracked_objects tid
  | [], _, _, _ => rfl
  | td :: l, st, tid, h => by
    rw [List.foldl_cons,
      foldAssoc_dget_not_mem n l _ tid (fun x hx => h x (List.mem_cons_of_mem _ hx))]
    exact applyAssociation_dget_ne n st td tid (h td (List.mem_cons_self _ _))

theorem foldAssoc_matched (n : ℤ) :
    ∀ (l : List (ℕ × Detection)) (st : TrackerState) (tid : ℕ) (t : Track),
      dget st.tracked_objects tid = some t → t.is_active = true →
      tid ∈ l.map Prod.fst →
      ∃ t', dget (List.foldl (applyAssociation n) st l).tracked_objects tid = some t' ∧
        t'.frames_lost = 0 ∧ t'.is_active = true
  | [], _, _, _, _, _, hmem => absurd hmem (by simp)
  | td :: l, st, tid, t, hget, hact, hmem => by
    rw [List.foldl_cons]
    by_cases hk : td.1 = tid
    · have hself := applyAssociation_dget_self n st td t (by rw [hk]; exact hget)
      rw [hk] at hself
      obtain ⟨hu0, hu1, _, _⟩ := update_track_fields st.counting_lines
        st.crossing_counts t td.2 n
      by_cases hmem2 : tid ∈ l.map Prod.fst
      · exact foldAssoc_matched n l _ tid _ hself (by rw [hu1]; exact hact) hmem2
      · have hne : ∀ x ∈ l, x.1 ≠ tid := by
          intro x hx he
          exact hmem2 (List.mem_map.mpr ⟨x, hx, he⟩)
        rw [foldAssoc_dget_not_mem n l _ tid hne, hself]
        exact ⟨_, rfl, hu0, by rw [hu1]; exact hact⟩
    · have hget2 : dget (applyAssociation n st td).tracked_objects tid = some t := by
        rw [applyAssociation_dget_ne n st td tid hk]
        exact hget
      have hmem2 : tid ∈ l.map Prod.fst := by
        rcases List.mem_map.mp hmem with ⟨x, hx, hxe⟩
        rcases List.mem_cons.mp hx with he | he
        · exact absurd (he ▸ hxe) hk
        · exact List.mem_map.mpr ⟨x, he, hxe⟩
      exact foldAssoc_matched n l _ tid t hget2 hact hmem2

theorem create_dget_lt (st : TrackerState) (d : Detection) (n : ℤ) (tid : ℕ)
    (h : tid < st.next_track_id) :
    dget (create_new_track st d n).tracked_objects tid = dget st.tracked_objects tid := by
  unfold create_new_track
  exact dget_dset_ne _ _ _ _ (by omega)

theorem foldCreate_dget (n : ℤ) :
    ∀ (l : List Detection) (st : TrackerState) (tid : ℕ), tid < st.next_track_id →
      dget (List.foldl (fun st d => create_new_track st d n) st l).tracked_objects tid =
        dget st.tracked_objects tid ∧
      st.next_track_id ≤
        (List.foldl (fun st d => create_new_track st d n) st l).next_track_id
  | [], _, _, _ => ⟨rfl, le_refl _⟩
  | d :: l, st, tid, h => by
    rw [List.foldl_cons]
    have hnext : (create_new_track st d n).next_track_id = st.next_track_id + 1 := rfl
    obtain ⟨h1, h2⟩ := foldCreate_dget n l (create_new_track st d n) tid
      (by rw [hnext]; omega)
    refine ⟨?_, ?_⟩
    · rw [h1]
      exact create_dget_lt st d n tid h
    · rw [hnext] at h2
      omega

theorem handle_lost_dget_ne (st : TrackerState) (k tid : ℕ) (h : k ≠ tid) :
    dget (handle_lost_track st k).tracked_objects tid = dget st.tracked_objects tid := by
  unfold handle_lost_track
  cases dget st.tracked_objects k with
  | none => rfl
  | some tr =>
    dsimp only
    by_cases hc : max_frames_lost ≤ tr.frames_lost + 1
    · rw [if_pos hc]
      exact dget_dset_ne _ _ _ _ h
    · rw [if_neg hc]
      exact dget_dset_ne _ _ _ _ h

theorem handle_lost_dget_self (st : TrackerState) (tid : ℕ) (t : Track)
    (h : dget st.tracked_objects tid = some t) :
    ∃ t', dget (handle_lost_track st tid).tracked_objects tid = some t' ∧
      t'.frames_lost = t.frames_lost + 1 := by
  unfold handle_lost_track
  rw [h]
  dsimp only
  by_cases hc : max_frames_lost ≤ t.frames_lost + 1
  · rw [if_pos hc]
    exact ⟨_, dget_dset_self _ _ _, rfl⟩
  · rw [if_neg hc]
    exact ⟨_, dget_dset_self _ _ _, rfl⟩

theorem foldLost_dget_not_mem :
    ∀ (l : List ℕ) (st : TrackerState) (tid : ℕ), tid ∉ l →
      dget (List.foldl handle_lost_track st l).tracked_objects tid =
        dget st.tracked_objects tid
  | [], _, _, _ => rfl
  | k :: l, st, tid, h => by
    rw [List.foldl_cons,
      foldLost_dget_not_mem l _ tid (fun hm => h (List.mem_cons_of_mem _ hm))]
    exact handle_lost_dget_ne st k tid (fun he => h (he ▸ List.mem_cons_self _ _))

theorem cleanup_dget_some {s : TrackerState} {tid : ℕ} {t : Track}
    (hnd : (dkeys s.tracked_objects).Nodup)
    (h : dget (cleanup_inactive_tracks s).tracked_objects tid = some t) :
    dget s.tracked_objects tid = some t := by
  unfold cleanup_inactive_tracks at h
  exact mem_dget_of_nodup hnd (List.mem_of_mem_filter (dget_mem h))

theorem cleanup_dget_keep {s : TrackerState} {tid : ℕ} {t : Track}
    (hnd : (dkeys s.tracked_objects).Nodup)
    (h : dget s.tracked_objects tid = some t) (hact : t.is_active = true) :
    dget (cleanup_inactive_tracks s).tracked_objects tid = some t := by
  unfold cleanup_inactive_tracks
  apply mem_dget_of_nodup
  · exact ((List.filter_sublist _).map _).nodup hnd
  · exact List.mem_filter.mpr ⟨dget_mem h, by simp [hact]⟩

/-! ### Membership in the unmatched-track list -/

theorem mem_foldl_erase_of_ne (g : ℕ × ℕ → ℕ) :
    ∀ (rem : List (ℕ × ℕ)) (acc : List ℕ) (tid : ℕ),
      tid ∈ acc → (∀ ij ∈ rem, g ij ≠ tid) →
      tid ∈ rem.foldl (fun l ij => l.erase (g ij)) acc
  | [], _, _, h, _ => h
  | ij :: rem, acc, tid, h, hne => by
    rw [List.foldl_cons]
    refine mem_foldl_erase_of_ne g rem _ tid ?_
      (fun x hx => hne x (List.mem_cons_of_mem _ hx))
    exact (List.mem_erase_of_ne
      (fun he => (hne ij (List.mem_cons_self _ _)) he.symm)).mpr h

theorem nodup_foldl_erase (g : ℕ × ℕ → ℕ) :
    ∀ (rem : List (ℕ × ℕ)) (acc : List ℕ), acc.Nodup →
      (rem.foldl (fun l ij => l.erase (g ij)) acc).Nodup
  | [], _, h => h
  | ij :: rem, acc, h => by
    rw [List.foldl_cons]
    exact nodup_foldl_erase g rem _ (h.erase _)

theorem not_mem_foldl_erase (g : ℕ × ℕ → ℕ) :
    ∀ (rem : List (ℕ × ℕ)) (acc : List ℕ) (tid : ℕ), acc.Nodup →
      ((∃ ij ∈ rem, g ij = tid) ∨ tid ∉ acc) →
      tid ∉ rem.foldl (fun l ij => l.erase (g ij)) acc
  | [], _, tid, _, h => by
    rcases h with ⟨ij, hij, _⟩ | h
    · simp at hij
    · exact h
  | ij :: rem, acc, tid, hnd, h => by
    rw [List.foldl_cons]
    refine not_mem_foldl_erase g rem _ tid (hnd.erase _) ?_
    by_cases hg : g ij = tid
    · right
      rw [← hg]
      intro hm
      exact absurd rfl ((hnd.mem_erase_iff.mp hm).1)
    · rcases h with ⟨ij', hij', hgij'⟩ | h
      · rcases List.mem_cons.mp hij' with he | he
        · exact absurd (he ▸ hgij') hg
        · exact Or.inl ⟨ij', he, hgij'⟩
      · exact Or.inr (fun hm => h (List.erase_subset _ _ hm))

theorem nodup_mem_split {l : List ℕ} {tid : ℕ} (hnd : l.Nodup) (hm : tid ∈ l) :
    ∃ l₁ l₂, l = l₁ ++ tid :: l₂ ∧ tid ∉ l₁ ∧ tid ∉ l₂ := by
  obtain ⟨l₁, l₂, he⟩ := List.append_of_mem hm
  subst he
  rw [List.nodup_append] at hnd
  refine ⟨l₁, l₂, rfl, ?_, ?_⟩
  · intro hm1
    exact hnd.2.2 hm1 (List.mem_cons_self _ _)
  · exact (List.nodup_cons.mp hnd.2.1).1

/-! ### The crossed flag is never reset by an update -/

/-- Every binding of `tid` carries a set crossed-flag, and `tid` is below the
fresh-id counter (so a newly created track cannot shadow it). -/
def FlagInv (tid : ℕ) (st : TrackerState) : Prop :=
  tid < st.next_track_id ∧
    ∀ u : Track, (tid, u) ∈ st.tracked_objects → u.has_crossed_line = true

theorem FlagInv_applyAssociation (n : ℤ) (st : TrackerState) (td : ℕ × Detection)
    (tid : ℕ) (h : FlagInv tid st) : FlagInv tid (applyAssociation n st td) := by
  refine ⟨by rw [(applyAssociation_keys n st td).2]; exact h.1, ?_⟩
  intro u hu
  unfold applyAssociation at hu
  cases hg : dget st.tracked_objects td.1 with
  | none =>
    rw [hg] at hu
    exact h.2 u hu
  | some tr =>
    rw [hg] at hu
    dsimp only at hu
    rcases mem_dset hu with he | he
    · have he1 : tid = td.1 := congrArg Prod.fst he
      have he2 : u = (update_track st.counting_lines st.crossing_counts tr td.2 n).2 :=
        congrArg Prod.snd he
      have hg' : dget st.tracked_objects tid = some tr := by rw [he1]; exact hg
      have htr : tr.has_crossed_line = true := h.2 tr (dget_mem hg')
      rw [he2]
      exact (update_track_fields _ _ _ _ _).2.2.2 htr
    · exact h.2 u he

theorem FlagInv_create (st : TrackerState) (d : Detection) (n : ℤ) (tid : ℕ)
    (h : FlagInv tid st) : FlagInv tid (create_new_track st d n) := by
  have hnext : (create_new_track st d n).next_track_id = st.next_track_id + 1 := rfl
  refine ⟨by rw [hnext]; exact Nat.lt_succ_of_lt h.1, ?_⟩
  intro u hu
  unfold create_new_track at hu
  dsimp only at hu
  rcases mem_dset hu with he | he
  · have he1 : tid = st.next_track_id := congrArg Prod.fst he
    exact absurd he1 (by have := h.1; omega)
  · exact h.2 u he

theorem FlagInv_lost (st : TrackerState) (k tid : ℕ) (h : FlagInv tid st) :
    FlagInv tid (handle_lost_track st k) := by
  refine ⟨by rw [(handle_lost_keys st k).2]; exact h.1, ?_⟩
  intro u hu
  unfold handle_lost_track at hu
  cases hg : dget st.tracked_objects k with
  | none =>
    rw [hg] at hu
    exact h.2 u hu
  | some tr =>
    rw [hg] at hu
    dsimp only at hu
    have hmem : ∀ v : Track, (tid, u) ∈ dset st.tracked_objects k v →
        v.has_crossed_line = tr.has_crossed_line → u.has_crossed_line = true := by
      intro v hm hv
      rcases mem_dset hm with he | he
      · have he1 : tid = k := congrArg Prod.fst he
        have he2 : u = v := congrArg Prod.snd he
        have hg' : dget st.tracked_objects tid = some tr := by rw [he1]; exact hg
        rw [he2, hv]
        exact h.2 tr (dget_mem hg')
      · exact h.2 u he
    by_cases hc : max_frames_lost ≤ tr.frames_lost + 1
    · rw [if_pos hc] at hu
      exact hmem _ hu rfl
    · rw [if_neg hc] at hu
      exact hmem _ hu rfl

theorem FlagInv_cleanup (s : TrackerState) (tid : ℕ) (h : FlagInv tid s) :
    FlagInv tid (cleanup_inactive_tracks s) := by
  refine ⟨h.1, ?_⟩
  intro u hu
  unfold cleanup_inactive_tracks at hu
  dsimp only at hu
  exact h.2 u (List.mem_of_mem_filter hu)

/-- C6: (i) a crossing check on a track whose `has_crossed_line` flag is
already set changes neither the track nor any directional counter; (ii) one
crossing check adds exactly one crossing to the counter total exactly when
the flag transitions false→true during that check (so each track increments
a counter at most once, at its first crossing); (iii) across a whole
`trackerUpdate` call, a set flag stays set for as long as the track remains
in the table — the flag is never reset, hence transitions false→true at most
once in a track's lifetime. -/
theorem C6_has_crossed_line_once (lines : List CountingLine) (c : CrossCounts)
    (t : Track) (old : ℚ × ℚ) (s : TrackerState) (dets : List Detection) (n : ℤ)
    (tid : ℕ) (t0 : Track) (hwf : WFState s)
    (hget : dget s.tracked_objects tid = some t0)
    (hflag : t0.has_crossed_line = true) :
    (t.has_crossed_line = true → check_line_crossings lines c t old = (c, t)) ∧
    (totalCounts (check_line_crossings lines c t old).1 =
      totalCounts c + (if (check_line_crossings lines c t old).2.has_crossed_line &&
          !t.has_crossed_line then 1 else 0)) ∧
    (∀ t', dget ((trackerUpdate s dets n).1).tracked_objects tid = some t' →
      t'.has_crossed_line = true) := by
  refine ⟨(check_line_crossings_flag_and_counters lines c t old).1,
          (check_line_crossings_flag_and_counters lines c t old).2, ?_⟩
  intro t' hget'
  have hinv1 : FlagInv tid { s with frame_count := n } := by
    refine ⟨hwf.2 tid (List.mem_map.mpr ⟨(tid, t0), dget_mem hget, rfl⟩), ?_⟩
    intro u hu
    have hu' : dget s.tracked_objects tid = some u := mem_dget_of_nodup hwf.1 hu
    rw [hget] at hu'
    injection hu' with hu2
    rw [← hu2]
    exact hflag
  have hinv2 := foldl_preserve (FlagInv tid) (applyAssociation n)
    (associate_detections { s with frame_count := n } dets).associations
    { s with frame_count := n } hinv1
    (fun b x hb _ => FlagInv_applyAssociation n b x tid hb)
  have hinv3 := foldl_preserve (FlagInv tid) (fun st d => create_new_track st d n)
    (associate_detections { s with frame_count := n } dets).unmatched_detections
    _ hinv2 (fun b x hb _ => FlagInv_create b x n tid hb)
  have hinv4 := foldl_preserve (FlagInv tid) handle_lost_track
    (associate_detections { s with frame_count := n } dets).unmatched_tracks
    _ hinv3 (fun b x hb _ => FlagInv_lost b x tid hb)
  have hinv5 := FlagInv_cleanup _ tid hinv4
  exact hinv5.2 t' (dget_mem hget')

def c6_track : Track :=
  { defaultTrack with track_id := 1, class_name := "car", class_id := 2,
                      center := (500, 500), has_crossed_line := true }

def c6_state : TrackerState :=
  { tracked_objects := [(1, c6_track)], next_track_id := 2 }

set_option maxRecDepth 4000 in
unseal Rat.mul Rat.sub Rat.add Rat.inv in
theorem C6_has_crossed_line_once_witness :
    WFState c6_state ∧
    dget c6_state.tracked_objects 1 = some c6_track ∧
    c6_track.has_crossed_line = true ∧
    ((c6_track.has_crossed_line = true →
        check_line_crossings defaultCountingLines {} c6_track (0, 0) =
          ({}, c6_track)) ∧
      (totalCounts (check_line_crossings defaultCountingLines {} c6_track (0, 0)).1 =
        totalCounts {} +
          (if (check_line_crossings defaultCountingLines {} c6_track (0, 0)).2.has_crossed_line
              && !c6_track.has_crossed_line then 1 else 0)) ∧
      (∀ t', dget ((trackerUpdate c6_state [] 1).1).tracked_objects 1 = some t' →
        t'.has_crossed_line = true)) :=
  ⟨by decide, by decide, by decide,
    C6_has_crossed_line_once defaultCountingLines {} c6_track (0, 0) c6_state [] 1 1
      c6_track (by decide) (by decide) (by decide)⟩

/-! ### `frames_lost` bookkeeping for active tracks (claim C8) -/

theorem WF_stage4 (s1 : TrackerState) (r : AssocResult) (n : ℤ) (hwf : WFState s1) :
    WFState (List.foldl handle_lost_track
      (List.foldl (fun st d => create_new_track st d n)
        (List.foldl (applyAssociation n) s1 r.associations)
        r.unmatched_detections)
      r.unmatched_tracks) := by
  have hwf2 := foldl_preserve WFState (applyAssociation n) r.associations s1 hwf
    (fun b x hb _ => WF_applyAssociation n b x hb)
  have hwf3 := foldl_preserve WFState (fun st d => create_new_track st d n)
    r.unmatched_detections _ hwf2 (fun b x hb _ => WF_create b x n hb)
  exact foldl_preserve WFState handle_lost_track r.unmatched_tracks _ hwf3
    (fun b x hb _ => WF_handle_lost b x hb)

theorem trackerUpdate_matched_frames_lost (s : TrackerState) (dets : List Detection)
    (n : ℤ) (tid : ℕ) (t : Track) (hwf : WFState s)
    (hget : dget s.tracked_objects tid = some t) (hact : t.is_active = true)
    (hm : tid ∈ (associate_detections { s with frame_count := n } dets).associations.map
      Prod.fst) :
    ∃ t', dget ((trackerUpdate s dets n).1).tracked_objects tid = some t' ∧
      t'.frames_lost = 0 := by
  have hwf1 : WFState { s with frame_count := n } := hwf
  have htid_lt : tid < s.next_track_id :=
    hwf.2 tid (List.mem_map.mpr ⟨(tid, t), dget_mem hget, rfl⟩)
  obtain ⟨t', hget2, h0, hact2⟩ := foldAssoc_matched n
    (associate_detections { s with frame_count := n } dets).associations
    { s with frame_count := n } tid t hget hact hm
  have hnext2 : (List.foldl (applyAssociation n) { s with frame_count := n }
      (associate_detections { s with frame_count := n } dets).associations).next_track_id =
      s.next_track_id :=
    foldAssoc_next n _ _
  obtain ⟨hget3, _⟩ := foldCreate_dget n
    (associate_detections { s with frame_count := n } dets).unmatched_detections
    _ tid (by rw [hnext2]; exact htid_lt)
  rw [hget2] at hget3
  -- the track was matched, so it is not in the unmatched-track list
  have hne : ¬((s : TrackerState).tracked_objects.isEmpty = true ∨
      ((s : TrackerState).tracked_objects.filter (fun p => p.2.is_active)).isEmpty = true) := by
    rintro (he | he)
    · rw [List.isEmpty_iff] at he
      have := dget_mem hget
      rw [he] at this
      simp at this
    · rw [List.isEmpty_iff] at he
      have : (tid, t) ∈ s.tracked_objects.filter (fun p => p.2.is_active) :=
        List.mem_filter.mpr ⟨dget_mem hget, by simp [hact]⟩
      rw [he] at this
      simp at this
  have htids_nodup :
      ((s.tracked_objects.filter (fun p => p.2.is_active)).map (fun p => p.1)).Nodup :=
    ((List.filter_sublist _).map _).nodup hwf.1
  have hnotm : tid ∉ (associate_detections { s with frame_count := n } dets).unmatched_tracks := by
    simp only [associate_detections, if_neg hne]
    apply not_mem_foldl_erase _ _ _ _ htids_nodup
    left
    simp only [associate_detections, if_neg hne, List.map_map] at hm
    obtain ⟨ij, hij, hgij⟩ := List.mem_map.mp hm
    exact ⟨ij, hij, hgij⟩
  rw [← foldLost_dget_not_mem
    (associate_detections { s with frame_count := n } dets).unmatched_tracks _ tid hnotm]
    at hget3
  have hwf4 := WF_stage4 { s with frame_count := n }
    (associate_detections { s with frame_count := n } dets) n hwf1
  exact ⟨t', cleanup_dget_keep hwf4.1 hget3 hact2, h0⟩

theorem trackerUpdate_unmatched_frames_lost (s : TrackerState) (dets : List Detection)
    (n : ℤ) (tid : ℕ) (t : Track) (hwf : WFState s)
    (hget : dget s.tracked_objects tid = some t) (hact : t.is_active = true)
    (hm : tid ∉ (associate_detections { s with frame_count := n } dets).associations.map
      Prod.fst) :
    ∀ t', dget ((trackerUpdate s dets n).1).tracked_objects tid = some t' →
      t'.frames_lost = t.frames_lost + 1 := by
  intro t' hget'
  have hwf1 : WFState { s with frame_count := n } := hwf
  have htid_lt : tid < s.next_track_id :=
    hwf.2 tid (List.mem_map.mpr ⟨(tid, t), dget_mem hget, rfl⟩)
  have hne : ¬((s : TrackerState).tracked_objects.isEmpty = true ∨
      ((s : TrackerState).tracked_objects.filter (fun p => p.2.is_active)).isEmpty = true) := by
    rintro (he | he)
    · rw [List.isEmpty_iff] at he
      have := dget_mem hget
      rw [he] at this
      simp at this
    · rw [List.isEmpty_iff] at he
      have : (tid, t) ∈ s.tracked_objects.filter (fun p => p.2.is_active) :=
        List.mem_filter.mpr ⟨dget_mem hget, by simp [hact]⟩
      rw [he] at this
      simp at this
  have htids_nodup :
      ((s.tracked_objects.filter (fun p => p.2.is_active)).map (fun p => p.1)).Nodup :=
    ((List.filter_sublist _).map _).nodup hwf.1
  -- the association fold leaves the track alone
  have hne_assoc : ∀ td ∈ (associate_detections { s with frame_count := n } dets).associations,
      td.1 ≠ tid :=
    fun td htd he => hm (List.mem_map.mpr ⟨td, htd, he⟩)
  have hget2 : dget (List.foldl (applyAssociation n) { s with frame_count := n }
      (associate_detections { s with frame_count := n } dets).associations).tracked_objects
      tid = some t := by
    rw [foldAssoc_dget_not_mem n _ _ tid hne_assoc]
    exact hget
  have hnext2 : (List.foldl (applyAssociation n) { s with frame_count := n }
      (associate_detections { s with frame_count := n } dets).associations).next_track_id =
      s.next_track_id :=
    foldAssoc_next n _ _
  obtain ⟨hget3, _⟩ := foldCreate_dget n
    (associate_detections { s with frame_count := n } dets).unmatched_detections
    _ tid (by rw [hnext2]; exact htid_lt)
  rw [hget2] at hget3
  -- the track is in the unmatched-track list, exactly once
  have hmem_unm : tid ∈ (associate_detections { s with frame_count := n } dets).unmatched_tracks := by
    simp only [associate_detections, if_neg hne]
    apply mem_foldl_erase_of_ne
    · exact List.mem_map.mpr ⟨(tid, t),
        List.mem_filter.mpr ⟨dget_mem hget, by simp [hact]⟩, rfl⟩
    · intro ij hij he
      apply hm
      simp only [associate_detections, if_neg hne, List.map_map]
      exact List.mem_map.mpr ⟨ij, hij, he⟩
  have hnd_unm : (associate_detections { s with frame_count := n } dets).unmatched_tracks.Nodup := by
    simp only [associate_detections, if_neg hne]
    exact nodup_foldl_erase _ _ _ htids_nodup
  obtain ⟨l1, l2, hsplit, hnl1, hnl2⟩ := nodup_mem_split hnd_unm hmem_unm
  have hget4 : ∃ t'', dget (List.foldl handle_lost_track
      (List.foldl (fun st d => create_new_track st d n)
        (List.foldl (applyAssociation n) { s with frame_count := n }
          (associate_detections { s with frame_count := n } dets).associations)
        (associate_detections { s with frame_count := n } dets).unmatched_detections)
      (associate_detections { s with frame_count := n } dets).unmatched_tracks).tracked_objects
      tid = some t'' ∧ t''.frames_lost = t.frames_lost + 1 := by
    rw [hsplit, List.foldl_append, List.foldl_cons]
    obtain ⟨t'', hget5, hfl⟩ := handle_lost_dget_self _ tid t
      (by rw [foldLost_dget_not_mem l1 _ tid hnl1]; exact hget3)
    refine ⟨t'', ?_, hfl⟩
    rw [foldLost_dget_not_mem l2 _ tid hnl2]
    exact hget5
  obtain ⟨t'', hget4, hfl⟩ := hget4
  have hwf4 := WF_stage4 { s with frame_count := n }
    (associate_detections { s with frame_count := n } dets) n hwf1
  have hget5 : dget (List.foldl handle_lost_track
      (List.foldl (fun st d => create_new_track st d n)
        (List.foldl (applyAssociation n) { s with frame_count := n }
          (associate_detections { s with frame_count := n } dets).associations)
        (associate_detections { s with frame_count := n } dets).unmatched_detections)
      (associate_detections { s with frame_count := n } dets).unmatched_tracks).tracked_objects
      tid = some t' :=
    cleanup_dget_some hwf4.1 hget'
  rw [hget4] at hget5
  injection hget5 with hg
  rw [← hg]
  exact hfl

/-- C8: the claim holds for tracks that are *active* when the update begins:
a successfully associated track ends the update present with `frames_lost`
reset to 0, and an active track that goes unmatched has `frames_lost`
incremented by exactly 1 (whenever it is still in the table afterwards).
Inactive tracks — which the claim as written also covers — are not aged;
see the counterexample. -/
theorem C8_frames_lost_amended (s : TrackerState) (dets : List Detection) (n : ℤ)
    (tid : ℕ) (t : Track) (hwf : WFState s)
    (hget : dget s.tracked_objects tid = some t) (hact : t.is_active = true) :
    (tid ∈ (associate_detections { s with frame_count := n } dets).associations.map
        Prod.fst →
      ∃ t', dget ((trackerUpdate s dets n).1).tracked_objects tid = some t' ∧
        t'.frames_lost = 0) ∧
    (tid ∉ (associate_detections { s with frame_count := n } dets).associations.map
        Prod.fst →
      ∀ t', dget ((trackerUpdate s dets n).1).tracked_objects tid = some t' →
        t'.frames_lost = t.frames_lost + 1) :=
  ⟨fun hm => trackerUpdate_matched_frames_lost s dets n tid t hwf hget hact hm,
   fun hm => trackerUpdate_unmatched_frames_lost s dets n tid t hwf hget hact hm⟩

/-! ## Concrete runs of the tracker (claims C2, C3, C8, C10) -/

/-- A stationary car detection at (500, 500). -/
def c2_det : Detection :=
  { class_name := "car", class_id := 2, confidence := 9/10,
    bbox := [480, 480, 520, 520], center := (500, 500) }

/-- The tracker after frames 1..n, with the detection present on frames 1-3
and absent afterwards (so frame 4 is the 1st absent frame, frame 13 the
10th, frame 14 the 11th). -/
def c2_state (n : ℕ) : TrackerState :=
  (List.range n).foldl
    (fun st k => (trackerUpdate st (if k + 1 ≤ 3 then [c2_det] else []) (k + 1 : ℤ)).1)
    initTracker

set_option maxRecDepth 10000 in
unseal Rat.mul Rat.sub Rat.add Rat.inv in
/-- C2 counterexample: with the detection present 3 frames then absent, the
track is already inactive after the 10th absent frame (overall frame 13) —
`frames_lost` reaches `max_frames_lost = 10` there and the source tests
`frames_lost >= max_frames_lost` — whereas the claim asserts it first flips
on the 11th absent frame (so would still be active here). -/
theorem C2_counterexample_inactive_on_10th :
    (dget (c2_state 13).tracked_objects 1).map (fun t => t.is_active) = some false ∧
    (dget (c2_state 12).tracked_objects 1).map (fun t => t.is_active) = some true := by
  decide

set_option maxRecDepth 10000 in
unseal Rat.mul Rat.sub Rat.add Rat.inv in
/-- C2 amended: the track stays active through the 9th absent frame
(`frames_lost = 9`), flips to inactive exactly on the 10th absent frame
(overall frame 13, `frames_lost = 10`), stays inactive on the 11th, and is
never counted completed since `frames_tracked = 3 < min_track_length = 5`. -/
theorem C2_amended_inactive_on_10th_not_completed :
    (dget (c2_state 12).tracked_objects 1).map
        (fun t => (t.is_active, t.frames_lost, t.frames_tracked)) =
      some (true, 9, 3) ∧
    (dget (c2_state 13).tracked_objects 1).map
        (fun t => (t.is_active, t.frames_lost, t.frames_tracked)) =
      some (false, 10, 3) ∧
    (dget (c2_state 14).tracked_objects 1).map (fun t => t.is_active) = some false ∧
    (c2_state 13).total_tracks_completed = 0 ∧
    (c2_state 14).total_tracks_completed = 0 := by
  decide

set_option maxRecDepth 10000 in
unseal Rat.mul Rat.sub Rat.add Rat.inv in
/-- C3: `update` never checks frame-number monotonicity.  After an update at
frame 7, an update at frame 5 is processed normally — the state is mutated
(`frame_count` is overwritten backwards to 5) instead of the call being
rejected with the state left unchanged. -/
theorem C3_out_of_order_frame_accepted :
    ((trackerUpdate initTracker [] 7).1).frame_count = 7 ∧
    ((trackerUpdate (trackerUpdate initTracker [] 7).1 [] 5).1).frame_count = 5 ∧
    (trackerUpdate (trackerUpdate initTracker [] 7).1 [] 5).1 ≠
      (trackerUpdate initTracker [] 7).1 := by
  decide

set_option maxRecDepth 10000 in
unseal Rat.mul Rat.sub Rat.add Rat.inv in
/-- C8 counterexample: an *inactive* track sits in the table with
`frames_lost = 10`; the next update (frame 14, no detections) leaves the
track unmatched yet `frames_lost` stays 10 — the claim, which covers every
track in the table, demands an increment to 11. -/
theorem C8_frames_lost_counterexample :
    (dget (c2_state 13).tracked_objects 1).map
        (fun t => (t.is_active, t.frames_lost)) = some (false, 10) ∧
    c2_state 14 = (trackerUpdate (c2_state 13) [] 14).1 ∧
    (dget (c2_state 14).tracked_objects 1).map (fun t => t.frames_lost) = some 10 := by
  decide

def c8_track : Track :=
  { defaultTrack with track_id := 1, class_name := "car", class_id := 2,
                      center := (500, 500), frames_lost := 4 }

def c8_state : TrackerState :=
  { tracked_objects := [(1, c8_track)], next_track_id := 2 }

set_option maxRecDepth 10000 in
unseal Rat.mul Rat.sub Rat.add Rat.inv in
theorem C8_frames_lost_amended_witness :
    WFState c8_state ∧
    dget c8_state.tracked_objects 1 = some c8_track ∧
    c8_track.is_active = true ∧
    ((1 ∈ (associate_detections { c8_state with frame_count := 5 } [c2_det]).associations.map
        Prod.fst →
      ∃ t', dget ((trackerUpdate c8_state [c2_det] 5).1).tracked_objects 1 = some t' ∧
        t'.frames_lost = 0) ∧
    (1 ∉ (associate_detections { c8_state with frame_count := 5 } [c2_det]).associations.map
        Prod.fst →
      ∀ t', dget ((trackerUpdate c8_state [c2_det] 5).1).tracked_objects 1 = some t' →
        t'.frames_lost = c8_track.frames_lost + 1)) :=
  ⟨by decide, by decide, by decide,
    C8_frames_lost_amended c8_state [c2_det] 5 1 c8_track (by decide) (by decide)
      (by decide)⟩

/-- The tracker after frames 1..n, with the detection present on frames 1-6
(so the track reaches `frames_tracked = 6 ≥ min_track_length`) and absent
afterwards; it goes inactive and is counted completed at frame 16. -/
def c10_state (n : ℕ) : TrackerState :=
  (List.range n).foldl
    (fun st k => (trackerUpdate st (if k + 1 ≤ 6 then [c2_det] else []) (k + 1 : ℤ)).1)
    initTracker

set_option maxRecDepth 10000 in
unseal Rat.mul Rat.sub Rat.add Rat.inv in
/-- C10: `get_tracking_statistics` counts completed tracks (and averages
their lengths) only over inactive tracks *still in the table*; after a jump
to frame 117 the cleanup pass (inactive for more than 100 frames) deletes
the completed track, so the reported completed count drops 1 → 0 and the
average 6 → 0 across successive updates, both strictly below the cumulative
`total_tracks_completed = 1` kept by `_handle_lost_track`. -/
theorem C10_completed_stats_can_decrease :
    (∀ s : TrackerState,
      (get_tracking_statistics s).completed_tracks =
        (s.tracked_objects.filter (fun p =>
          !p.2.is_active && decide (min_track_length ≤ p.2.frames_tracked))).length) ∧
    (get_tracking_statistics (c10_state 16)).completed_tracks = 1 ∧
    (get_tracking_statistics (c10_state 16)).average_track_length = 6 ∧
    (c10_state 16).total_tracks_completed = 1 ∧
    (get_tracking_statistics ((trackerUpdate (c10_state 16) [] 117).1)).completed_tracks = 0 ∧
    (get_tracking_statistics ((trackerUpdate (c10_state 16) [] 117).1)).average_track_length
      = 0 ∧
    ((trackerUpdate (c10_state 16) [] 117).1).total_tracks_completed = 1 := by
  refine ⟨fun s => rfl, ?_⟩
  decide

end CamDetect
